import Mathlib

/-!
Verification of the argon pose-resolution and state-synchronization engine.

The repository ships `src/unnamed/part_000` (a TypeScript declaration file for
`EntityPose`, `PoseStatus`, `EntityService` and `EntityServiceProvider`; it
contains declarations and doc comments but no function bodies) and
`src/src/view.ts` (the full `ViewService` implementation).  Components whose
bodies are absent from the sources are modelled from the specification, as
marked in their doc comments; `ViewService` definitions are translated from
`view.ts` directly.

Numbers that are IEEE doubles in the source are modelled as rationals.
-/

set_option maxHeartbeats 1000000
set_option maxRecDepth 8000

namespace Argon

/-- A 3-vector (Cesium `Cartesian3`), with rational components. -/
structure Vec3 where
  x : ℚ
  y : ℚ
  z : ℚ
deriving DecidableEq, Repr

/-- A 4-component rotation (Cesium `Quaternion`), with rational components. -/
structure Quat4 where
  x : ℚ
  y : ℚ
  z : ℚ
  w : ℚ
deriving DecidableEq, Repr

/-- A pose: position plus orientation, produced fresh by each resolution. -/
structure Pose where
  position : Vec3
  orientation : Quat4
deriving DecidableEq, Repr

/-- The `PoseStatus` bitmask constants, from the `PoseStatus` enum declaration
in `src/unnamed/part_000` (KNOWN = 1, FOUND = 2, LOST = 4, CHANGED = 8). -/
def PoseStatus.KNOWN : Nat := 1

/-- FOUND bit of the `PoseStatus` bitmask. -/
def PoseStatus.FOUND : Nat := 2

/-- LOST bit of the `PoseStatus` bitmask. -/
def PoseStatus.LOST : Nat := 4

/-- CHANGED bit of the `PoseStatus` bitmask. -/
def PoseStatus.CHANGED : Nat := 8

/-- Whether a given bit of a status bitmask is set. -/
def hasFlag (st flag : Nat) : Bool := st &&& flag != 0

/-- The mutable fields of an `EntityPose` resolver handle, as declared in
`src/unnamed/part_000`: the current position/orientation/time/status and the
previous frame's equivalents.  Undefined values are `none`. -/
structure EntityPoseState where
  position : Option Vec3 := none
  orientation : Option Quat4 := none
  time : Option ℚ := none
  status : Nat := 0
  previousPosition : Option Vec3 := none
  previousOrientation : Option Quat4 := none
  previousTime : Option ℚ := none
  previousStatus : Nat := 0
deriving DecidableEq, Repr

/-- The state of a freshly constructed `EntityPose`: everything undefined,
status 0. -/
def EntityPoseState.initial : EntityPoseState := {}

/-- Modelled from the spec: the body of `EntityPose.update` is absent from the
declaration file `src/unnamed/part_000`, so this follows spec section 4.2:
shift current fields to previous, query the graph (abstracted here as the
`resolvePose` function for the tracked (entity, referenceFrame) pair), then
derive the status bits.  KNOWN is set iff the new pose is defined; FOUND iff
previous undefined and new defined; LOST iff previous defined and new
undefined.  For CHANGED, the spec's general rule in section 4.2 (a FOUND or a
LOST transition counts as a change) disagrees with its exact-value test in
section 8 property 7 (the defined-to-undefined step yields status `LOST`, not
`LOST|CHANGED`); the exact-value test fixes the model, so FOUND implies
CHANGED but LOST does not.  The implementation-chosen comparison tolerance is
taken to be exact equality. -/
def EntityPose.update (resolvePose : ℚ → Option Pose) (s : EntityPoseState) (t : ℚ) :
    EntityPoseState :=
  let r := resolvePose t
  let known : Bool := r.isSome
  let prevKnown : Bool := hasFlag s.status PoseStatus.KNOWN
  let newPos := r.map Pose.position
  let newOri := r.map Pose.orientation
  let found : Bool := known && !prevKnown
  let lost : Bool := !known && prevKnown
  let valueChanged : Bool := known && prevKnown &&
    (decide (newPos ≠ s.position) || decide (newOri ≠ s.orientation))
  let changed : Bool := valueChanged || found
  { position := newPos
    orientation := newOri
    time := if known then some t else none
    status := (cond known PoseStatus.KNOWN 0) ||| (cond found PoseStatus.FOUND 0) |||
      (cond lost PoseStatus.LOST 0) ||| (cond changed PoseStatus.CHANGED 0)
    previousPosition := s.position
    previousOrientation := s.orientation
    previousTime := s.time
    previousStatus := s.status }

/-- The pose function of the "ball" scenario of spec section 8 property 7:
no defined pose at t = 0, position [1,2,3] with orientation [0,0,0,1] at
t = 1, undefined again at t = 2. -/
def ballResolve : ℚ → Option Pose := fun t =>
  if t = 1 then some ⟨⟨1, 2, 3⟩, ⟨0, 0, 0, 1⟩⟩ else none

/-- Resolver state of the ball scenario after updating at t = 0. -/
def ballS1 : EntityPoseState := EntityPose.update ballResolve EntityPoseState.initial 0

/-- Resolver state of the ball scenario after updating at t = 0 then t = 1. -/
def ballS2 : EntityPoseState := EntityPose.update ballResolve ballS1 1

/-- Resolver state of the ball scenario after updating at t = 0, 1, 2. -/
def ballS3 : EntityPoseState := EntityPose.update ballResolve ballS2 2

/-- The closed set of fixed, non-entity reference frames (Cesium
`ReferenceFrame.INERTIAL` and `ReferenceFrame.FIXED`). -/
inductive FixedFrame
  | INERTIAL
  | FIXED
deriving DecidableEq, Repr

/-- A reference frame: either a fixed global frame or the id of another
tracked entity (spec section 3). -/
inductive Frame
  | fixed (f : FixedFrame)
  | entity (id : String)
deriving DecidableEq, Repr

/-- An entity of the reference-frame graph: its own reference frame plus its
local pose as a function of time (undefined at times where the entity is not
tracked). -/
structure GraphEntity where
  frame : Frame
  poseAt : ℚ → Option Pose

/-- The reference-frame graph: entities keyed by their stable string id. -/
abbrev FrameGraph := List (String × GraphEntity)

/-- The resolution error of spec section 7: the ancestor chain revisited an
id during a single resolution call. -/
inductive ResolveError
  | CyclicFrameError
deriving DecidableEq, Repr

/-- Componentwise vector addition. -/
def Vec3.add (a b : Vec3) : Vec3 := ⟨a.x + b.x, a.y + b.y, a.z + b.z⟩

/-- Hamilton product of two quaternions (composition of rotations). -/
def Quat4.mul (a b : Quat4) : Quat4 :=
  ⟨a.w * b.x + a.x * b.w + a.y * b.z - a.z * b.y,
   a.w * b.y - a.x * b.z + a.y * b.w + a.z * b.x,
   a.w * b.z + a.x * b.y - a.y * b.x + a.z * b.w,
   a.w * b.w - a.x * b.x - a.y * b.y - a.z * b.z⟩

/-- Rotation of a vector by a (unit) quaternion. -/
def Quat4.rotate (q : Quat4) (v : Vec3) : Vec3 :=
  let tx := 2 * (q.y * v.z - q.z * v.y)
  let ty := 2 * (q.z * v.x - q.x * v.z)
  let tz := 2 * (q.x * v.y - q.y * v.x)
  ⟨v.x + q.w * tx + (q.y * tz - q.z * ty),
   v.y + q.w * ty + (q.z * tx - q.x * tz),
   v.z + q.w * tz + (q.x * ty - q.y * tx)⟩

/-- Composition (multiplication) of transforms: `child` expressed in a frame
whose pose in the target frame is `parent`. -/
def Pose.compose (parent child : Pose) : Pose :=
  { position := parent.position.add (parent.orientation.rotate child.position)
    orientation := parent.orientation.mul child.orientation }

/-- First-match association-list lookup (JavaScript object / `Map` read). -/
def alookup {α β : Type _} [DecidableEq α] (k : α) : List (α × β) → Option β
  | [] => none
  | kv :: rest => if k = kv.fst then some kv.snd else alookup k rest

/-- The keys of an association list. -/
def akeys {α β : Type _} (l : List (α × β)) : List α := l.map Prod.fst

/-- Association-list update (JavaScript object / `Map` write): replaces the
first binding of the key, or appends a new binding. -/
def aupdate {α β : Type _} [DecidableEq α] (k : α) (v : β) :
    List (α × β) → List (α × β)
  | [] => [(k, v)]
  | kv :: rest => if k = kv.fst then (k, v) :: rest else kv :: aupdate k v rest

/-- Association-list deletion of every binding of a key. -/
def aremove {α β : Type _} [DecidableEq α] (k : α) : List (α × β) → List (α × β)
  | [] => []
  | kv :: rest => if k = kv.fst then aremove k rest else kv :: aremove k rest

/-- Monotonicity of filtering under pointwise implication of predicates.
Supports the termination measures of the recursive definitions below. -/
theorem length_filter_le_of_imp {α : Type _} {p q : α → Bool}
    (himp : ∀ x, q x = true → p x = true) :
    ∀ l : List α, (l.filter q).length ≤ (l.filter p).length := by
  intro l
  induction l with
  | nil => simp
  | cons hd tl ih =>
    simp only [List.filter_cons]
    by_cases hq : q hd = true
    · rw [if_pos hq, if_pos (himp hd hq)]
      simp only [List.length_cons]
      omega
    · rw [if_neg hq]
      by_cases hp : p hd = true
      · rw [if_pos hp]
        simp only [List.length_cons]
        omega
      · rw [if_neg hp]; exact ih

/-- Strict decrease of a filter's length when one kept element is dropped and
the predicate only shrinks.  Supports the termination measures of the
recursive definitions below. -/
theorem length_filter_lt_of_mem {α : Type _} {p q : α → Bool} (a : α)
    (hpa : p a = true) (hqa : q a = false)
    (himp : ∀ x, q x = true → p x = true) :
    ∀ {l : List α}, a ∈ l → (l.filter q).length < (l.filter p).length := by
  intro l hal
  induction l with
  | nil => cases hal
  | cons hd tl ih =>
    simp only [List.filter_cons]
    rcases List.mem_cons.mp hal with h | hmem
    · subst h
      rw [if_pos hpa, if_neg (by simp [hqa])]
      simp only [List.length_cons]
      exact Nat.lt_succ_of_le (length_filter_le_of_imp himp tl)
    · by_cases hq : q hd = true
      · rw [if_pos hq, if_pos (himp hd hq)]
        simp only [List.length_cons]
        exact Nat.succ_lt_succ (ih hmem)
      · rw [if_neg hq]
        by_cases hp : p hd = true
        · rw [if_pos hp]; exact Nat.lt_succ_of_lt (ih hmem)
        · rw [if_neg hp]; exact ih hmem

/-- A key with a successful lookup is among the association list's keys. -/
theorem mem_akeys_of_alookup {α β : Type _} [DecidableEq α] {k : α}
    {l : List (α × β)} {v : β} (h : alookup k l = some v) : k ∈ akeys l := by
  induction l with
  | nil => simp [alookup] at h
  | cons kv rest ih =>
    by_cases hk : k = kv.fst
    · simp [akeys, hk]
    · simp only [alookup, if_neg hk] at h
      simp only [akeys, List.map_cons, List.mem_cons]
      exact Or.inr (ih h)

/-- Modelled from the spec: the body of the resolution primitive
(`EntityPose._getEntityPositionInReferenceFrame` and the underlying frame
walk) is absent from the declaration file `src/unnamed/part_000`, so this
follows spec section 4.1: if the entity's own frame equals the target frame,
return its local pose; otherwise recursively resolve the entity's frame
relative to the target and compose transforms.  A visited-id set is
maintained during one resolution call, and encountering an id already
visited raises `CyclicFrameError`; an unknown id, a chain that tops out at a
fixed frame other than the target, or an undefined link makes the result
undefined (`none`) rather than an error. -/
def resolveAux (g : FrameGraph) (visited : List String) (id : String)
    (target : Frame) (t : ℚ) : Except ResolveError (Option Pose) :=
  if hv : id ∈ visited then .error .CyclicFrameError
  else
    match hl : alookup id g with
    | none => .ok none
    | some ent =>
      if ent.frame = target then .ok (ent.poseAt t)
      else
        match ent.frame with
        | .fixed _ => .ok none
        | .entity pid =>
          match resolveAux g (id :: visited) pid target t with
          | .error e => .error e
          | .ok none => .ok none
          | .ok (some parentPose) =>
            .ok ((ent.poseAt t).map (fun lp => parentPose.compose lp))
termination_by ((akeys g).filter (fun x => !(decide (x ∈ visited)))).length
decreasing_by
  exact length_filter_lt_of_mem id (by simp [hv]) (by simp)
    (by intro x hx
        simp only [Bool.not_eq_eq_eq_not, Bool.not_true, decide_eq_false_iff_not,
          List.mem_cons, not_or] at hx ⊢
        exact hx.2)
    (mem_akeys_of_alookup hl)

/-- One pose resolution call: resolve entity `id` relative to `target` at
time `t`, starting with an empty visited set. -/
def resolve (g : FrameGraph) (id : String) (target : Frame) (t : ℚ) :
    Except ResolveError (Option Pose) :=
  resolveAux g [] id target t

/-- The links of the frame chain whose local poses one resolution call
consults: the walked entity ids, up to and including the entity whose frame
equals the target. -/
def frameChainAux (g : FrameGraph) (visited : List String) (id : String)
    (target : Frame) : List String :=
  if hv : id ∈ visited then []
  else
    match hl : alookup id g with
    | none => []
    | some ent =>
      if ent.frame = target then [id]
      else
        match ent.frame with
        | .fixed _ => []
        | .entity pid => id :: frameChainAux g (id :: visited) pid target
termination_by ((akeys g).filter (fun x => !(decide (x ∈ visited)))).length
decreasing_by
  exact length_filter_lt_of_mem id (by simp [hv]) (by simp)
    (by intro x hx
        simp only [Bool.not_eq_eq_eq_not, Bool.not_true, decide_eq_false_iff_not,
          List.mem_cons, not_or] at hx ⊢
        exact hx.2)
    (mem_akeys_of_alookup hl)

/-- The frame chain of one resolution call from an empty visited set. -/
def frameChain (g : FrameGraph) (id : String) (target : Frame) : List String :=
  frameChainAux g [] id target

/-- Acyclicity of the reference-frame graph, witnessed by a rank function
that strictly decreases along every entity-frame edge (so no ancestor chain
can revisit an id). -/
def AcyclicFrames (g : FrameGraph) : Prop :=
  ∃ rank : String → Nat, ∀ id ent pid, alookup id g = some ent →
    ent.frame = Frame.entity pid → rank pid < rank id

/-- Entity A of the cyclic example graph: its reference frame is entity B. -/
def entA : GraphEntity :=
  { frame := Frame.entity "B", poseAt := fun _ => some ⟨⟨1, 0, 0⟩, ⟨0, 0, 0, 1⟩⟩ }

/-- Entity B of the cyclic example graph: its reference frame is entity A. -/
def entB : GraphEntity :=
  { frame := Frame.entity "A", poseAt := fun _ => some ⟨⟨0, 1, 0⟩, ⟨0, 0, 0, 1⟩⟩ }

/-- A two-entity cyclic graph: A's frame is B and B's frame is A, both with
defined local poses at every time. -/
def cycleGraphAB : FrameGraph := [("A", entA), ("B", entB)]

/-- Entity A3 of the three-cycle example graph: its frame is entity B3. -/
def entA3 : GraphEntity :=
  { frame := Frame.entity "B3", poseAt := fun _ => some ⟨⟨1, 0, 0⟩, ⟨0, 0, 0, 1⟩⟩ }

/-- Entity B3 of the three-cycle example graph: its frame is entity C3. -/
def entB3 : GraphEntity :=
  { frame := Frame.entity "C3", poseAt := fun _ => some ⟨⟨0, 1, 0⟩, ⟨0, 0, 0, 1⟩⟩ }

/-- Entity C3 of the three-cycle example graph: its frame is entity A3. -/
def entC3 : GraphEntity :=
  { frame := Frame.entity "A3", poseAt := fun _ => some ⟨⟨0, 0, 1⟩, ⟨0, 0, 0, 1⟩⟩ }

/-- A three-entity cyclic graph: A3's frame is B3, B3's frame is C3, and
C3's frame is A3 — a frame cycle of length three. -/
def cycleGraph3 : FrameGraph := [("A3", entA3), ("B3", entB3), ("C3", entC3)]

/-- The serialized state of one entity (spec section 6): position,
orientation and the reference frame they are expressed in.  A serialized
entry of `none` ("null") means "currently unknown", which is distinct from
the entity not being included in a state map at all. -/
structure SerializedEntityState where
  position : Vec3
  orientation : Quat4
  referenceFrame : Frame
deriving DecidableEq, Repr

/-- A serialized entity state map: entity id to serialized state or null. -/
abbrev EntityStateMap := List (String × Option SerializedEntityState)

/-- Modelled from the spec: the body of
`EntityServiceProvider._getSerializedEntityState` is absent from the
declaration file `src/unnamed/part_000`; per spec sections 3 and 4.4 an
entity serializes to its local pose expressed in its own reference frame, or
to null when that pose is undefined at the requested time (an undefined pose
is not an error) or the id is not a tracked entity. -/
def getSerializedEntityState (g : FrameGraph) (id : String) (t : ℚ) :
    Option SerializedEntityState :=
  match alookup id g with
  | none => none
  | some ent =>
    match ent.poseAt t with
    | none => none
    | some p => some { position := p.position, orientation := p.orientation,
                       referenceFrame := ent.frame }

/-- The per-frame cache state of `EntityServiceProvider`: the time the cache
was built for (`_cacheTime`), the cached serialized states
(`_entityStateCache`), and an operation count of fresh serializations
(instrumentation for "no recomputation" statements; the source has no such
counter, it only observes the work done). -/
structure ProviderState where
  cacheTime : Option ℚ := none
  entityStateCache : EntityStateMap := []
  computeCount : Nat := 0
deriving DecidableEq, Repr

/-- The staleness step of the per-frame cache: a cache built for a different
time is discarded in full (not entry-by-entry) and restamped before use. -/
def ProviderState.normalize (st : ProviderState) (t : ℚ) : ProviderState :=
  if st.cacheTime = some t then st
  else { st with cacheTime := some t, entityStateCache := [] }

/-- Modelled from the spec: the body of
`EntityServiceProvider._getCachedSerializedEntityState` is absent from the
declaration file `src/unnamed/part_000`; per spec section 4.4 it discards the
entire cache first when the stored time differs from `t`, then answers from
the cache, computing and storing the entry only on a miss. -/
def getCachedSerializedEntityState (g : FrameGraph) (st : ProviderState)
    (id : String) (t : ℚ) : Option SerializedEntityState × ProviderState :=
  let st1 := st.normalize t
  match alookup id st1.entityStateCache with
  | some v => (v, st1)
  | none =>
    let v := getSerializedEntityState g id t
    (v, { st1 with entityStateCache := (id, v) :: st1.entityStateCache,
                   computeCount := st1.computeCount + 1 })

/-- Modelled from the spec: the ancestor-inclusion walk of
`EntityServiceProvider.fillEntityStateMap` (its body is absent from the
declaration file `src/unnamed/part_000`); per spec section 4.4, when a
serialized entry's own reference frame is an entity id that is not already
present in the output map and not excluded, that ancestor's state is
serialized and inserted too, recursively, so receivers never get a dangling
frame reference. -/
def includeAncestors (g : FrameGraph) (st : ProviderState) (outMap : EntityStateMap)
    (t : ℚ) (excluded : List String) (fid : String) : EntityStateMap × ProviderState :=
  if h : fid ∈ akeys g ∧ fid ∉ akeys outMap ∧ fid ∉ excluded then
    match (getCachedSerializedEntityState g st fid t).fst with
    | some s =>
      match s.referenceFrame with
      | .entity pfid =>
        includeAncestors g (getCachedSerializedEntityState g st fid t).snd
          ((fid, (getCachedSerializedEntityState g st fid t).fst) :: outMap)
          t excluded pfid
      | .fixed _ =>
        ((fid, (getCachedSerializedEntityState g st fid t).fst) :: outMap,
          (getCachedSerializedEntityState g st fid t).snd)
    | none =>
      ((fid, (getCachedSerializedEntityState g st fid t).fst) :: outMap,
        (getCachedSerializedEntityState g st fid t).snd)
  else (outMap, st)
termination_by ((akeys g).filter (fun x => !(decide (x ∈ akeys outMap)))).length
decreasing_by
  exact length_filter_lt_of_mem fid (by simp [h.2.1]) (by simp [akeys])
    (by intro x hx
        simp only [akeys, List.map_cons, Bool.not_eq_eq_eq_not, Bool.not_true,
          decide_eq_false_iff_not, List.mem_cons, not_or] at hx ⊢
        exact hx.2)
    h.1

/-- Modelled from the spec: the per-included-id step of
`EntityServiceProvider.fillEntityStateMap`: look up (or compute and cache)
the id's serialized state, insert the result (possibly null) into the output
map, then include its ancestor reference frames. -/
def includeEntity (g : FrameGraph) (st : ProviderState) (outMap : EntityStateMap)
    (t : ℚ) (excluded : List String) (id : String) : EntityStateMap × ProviderState :=
  match (getCachedSerializedEntityState g st id t).fst with
  | some s =>
    match s.referenceFrame with
    | .entity pfid =>
      includeAncestors g (getCachedSerializedEntityState g st id t).snd
        ((id, (getCachedSerializedEntityState g st id t).fst) :: outMap)
        t excluded pfid
    | .fixed _ =>
      ((id, (getCachedSerializedEntityState g st id t).fst) :: outMap,
        (getCachedSerializedEntityState g st id t).snd)
  | none =>
    ((id, (getCachedSerializedEntityState g st id t).fst) :: outMap,
      (getCachedSerializedEntityState g st id t).snd)

/-- Modelled from the spec: the body of
`EntityServiceProvider.fillEntityStateMap` is absent from the declaration
file `src/unnamed/part_000`; per spec section 4.4 it serializes, through the
per-frame cache, every included id that is not excluded, together with its
ancestor reference frames. -/
def fillEntityStateMap (g : FrameGraph) (st : ProviderState) (outMap : EntityStateMap)
    (t : ℚ) (included excluded : List String) : EntityStateMap × ProviderState :=
  match included with
  | [] => (outMap, st)
  | id :: rest =>
    if id ∈ excluded then fillEntityStateMap g st outMap t rest excluded
    else
      let r := includeEntity g st outMap t excluded id
      fillEntityStateMap g r.snd r.fst t rest excluded

/-- Coherence of the per-frame cache at time `t`: it is stamped with `t` and
every cached entry equals the serialization it stands for. -/
def CacheCoherent (g : FrameGraph) (t : ℚ) (st : ProviderState) : Prop :=
  st.cacheTime = some t ∧
    ∀ x w, alookup x st.entityStateCache = some w → w = getSerializedEntityState g x t

/-- One cache's entries are all present, unchanged, in another. -/
def cacheExtends (c1 c2 : EntityStateMap) : Prop :=
  ∀ x v, alookup x c1 = some v → alookup x c2 = some v

/-- Ancestor-completeness of a serialized state map: every serialized entry
whose own reference frame is a (non-excluded) entity id of the graph has that
ancestor present in the map too. -/
def AncestorComplete (g : FrameGraph) (excluded : List String)
    (m : EntityStateMap) : Prop :=
  ∀ x s pfid, alookup x m = some (some s) → s.referenceFrame = Frame.entity pfid →
    pfid ∈ akeys g → pfid ∉ excluded → pfid ∈ akeys m

/-- The serialized state of entity E1 of the example graph at any time. -/
def sE1 : SerializedEntityState :=
  { position := ⟨1, 2, 3⟩, orientation := ⟨0, 0, 0, 1⟩,
    referenceFrame := Frame.entity "E2" }

/-- The serialized state of entity E2 of the example graph at any time. -/
def sE2 : SerializedEntityState :=
  { position := ⟨4, 5, 6⟩, orientation := ⟨0, 0, 0, 1⟩,
    referenceFrame := Frame.fixed FixedFrame.FIXED }

/-- Entity E2 of the subscription example: anchored on a fixed frame. -/
def entE2 : GraphEntity :=
  { frame := Frame.fixed FixedFrame.FIXED, poseAt := fun _ => some ⟨⟨4, 5, 6⟩, ⟨0, 0, 0, 1⟩⟩ }

/-- Entity E1 of the subscription example: its reference frame is entity E2. -/
def entE1 : GraphEntity :=
  { frame := Frame.entity "E2", poseAt := fun _ => some ⟨⟨1, 2, 3⟩, ⟨0, 0, 0, 1⟩⟩ }

/-- A provider state whose cache was built for time 1 and holds one entry. -/
def staleProviderState : ProviderState :=
  { cacheTime := some 1, entityStateCache := [("x", none)], computeCount := 0 }

/-- Entity U of the serialization example: never has a defined pose. -/
def entU : GraphEntity :=
  { frame := Frame.fixed FixedFrame.FIXED, poseAt := fun _ => none }

/-- The acyclic example graph: E1's frame is E2, E2 and U sit on a fixed
frame, and U's pose is undefined at every time. -/
def chainGraphE : FrameGraph := [("E1", entE1), ("E2", entE2), ("U", entU)]

/-- The rejection reason of a permission-gated subscribe request (spec
section 7). -/
inductive SubscribeError
  | PermissionDenied
deriving DecidableEq, Repr

/-- The provider-side subscription state declared in `src/unnamed/part_000`:
`subscribersByEntity` (entity id to the set of subscribed sessions) and
`subscriptionsBySubscriber` (session to its entity-to-options map).  Sessions
are modelled by numeric ids and subscription options by an arbitrary type. -/
structure ProviderSubState (Opts : Type _) where
  subscribersByEntity : List (String × List Nat) := []
  subscriptionsBySubscriber : List (Nat × List (String × Opts)) := []

/-- The observable effects of one handled subscribe request: the
`sessionSubscribedEvent` and the upstream subscribe triggered for a first
subscriber. -/
inductive ProviderEvent (Opts : Type _)
  | sessionSubscribed (session : Nat) (id : String) (options : Opts)
  | upstreamSubscribe (id : String)

/-- Modelled from the spec: the subscribe-request handler of
`EntityServiceProvider` (its body is absent from `src/unnamed/part_000`);
per spec section 4.4: consult the permission gate, and on denial reject with
`PermissionDenied` and mutate nothing; on success add the session to
`subscribersByEntity`, record the options under
`subscriptionsBySubscriber`, emit the subscribed event plus an upstream
subscribe when this is the first subscriber for the entity, and acknowledge
with the entity's current serialized state (null when undefined). -/
def handleSubscribe {Opts : Type _} (authorize : Nat → String → Opts → Bool)
    (g : FrameGraph) (t : ℚ) (st : ProviderSubState Opts) (session : Nat)
    (id : String) (opts : Opts) :
    Except SubscribeError (Option SerializedEntityState) × ProviderSubState Opts ×
      List (ProviderEvent Opts) :=
  if authorize session id opts then
    let oldSubs := (alookup id st.subscribersByEntity).getD []
    let newSubs := if session ∈ oldSubs then oldSubs else session :: oldSubs
    let perSession := (alookup session st.subscriptionsBySubscriber).getD []
    let events := if alookup id st.subscribersByEntity = none then
        [ProviderEvent.sessionSubscribed session id opts,
         ProviderEvent.upstreamSubscribe id]
      else []
    (.ok (getSerializedEntityState g id t),
     { subscribersByEntity := aupdate id newSubs st.subscribersByEntity,
       subscriptionsBySubscriber :=
         aupdate session (aupdate id opts perSession) st.subscriptionsBySubscriber },
     events)
  else (.error .PermissionDenied, st, [])

/-- The wire messages `EntityService` sends to its upstream session. -/
inductive UpstreamMessage
  | subscribe (id : String)
  | unsubscribe (id : String)
deriving DecidableEq, Repr

/-- The consumer-side state of `EntityService`: the local subscriptions
declared in `src/unnamed/part_000` with the interest count of spec section
4.3, the request-deduplication table of spec section 9 (entity id to the
call ids attached to the single outstanding request), the log of upstream
messages sent, and the results handed to resolved callers (call id to the
entity id whose unique collection entity the promise resolved to). -/
structure EntityServiceState where
  subscriptions : List (String × Nat) := []
  pending : List (String × List Nat) := []
  upstreamMessages : List UpstreamMessage := []
  resolved : List (Nat × String) := []
deriving DecidableEq, Repr

/-- Modelled from the spec: `EntityService.subscribe` (its body is absent
from `src/unnamed/part_000`); per spec sections 4.3 and 9: an id already
subscribed locally resolves immediately against the existing entity and
raises the interest count without a wire request; an id with an outstanding
request coalesces with it (no duplicate upstream message); otherwise one
upstream subscribe message is sent and the caller is attached to the new
outstanding request. -/
def svcSubscribe (st : EntityServiceState) (callId : Nat) (id : String) :
    EntityServiceState :=
  match alookup id st.subscriptions with
  | some n =>
    { st with subscriptions := aupdate id (n + 1) st.subscriptions,
              resolved := (callId, id) :: st.resolved }
  | none =>
    match alookup id st.pending with
    | some waiters =>
      { st with pending := aupdate id (callId :: waiters) st.pending }
    | none =>
      { st with pending := aupdate id [callId] st.pending,
                upstreamMessages := st.upstreamMessages ++ [UpstreamMessage.subscribe id] }

/-- Modelled from the spec: arrival of the acknowledgment for an outstanding
subscribe request: all coalesced callers resolve together to the same entity
and the local interest count grows by the number of waiting callers. -/
def svcAck (st : EntityServiceState) (id : String) : EntityServiceState :=
  match alookup id st.pending with
  | none => st
  | some waiters =>
    { st with pending := aremove id st.pending,
              subscriptions := aupdate id
                ((alookup id st.subscriptions).getD 0 + waiters.length)
                st.subscriptions,
              resolved := waiters.map (fun c => (c, id)) ++ st.resolved }

/-- Modelled from the spec: `EntityService.unsubscribe`: remove one unit of
local interest; only when no local consumer remains interested is an
upstream unsubscribe sent and the id dropped. -/
def svcUnsubscribe (st : EntityServiceState) (id : String) : EntityServiceState :=
  match alookup id st.subscriptions with
  | none => st
  | some n =>
    if n ≤ 1 then
      { st with subscriptions := aremove id st.subscriptions,
                upstreamMessages :=
                  st.upstreamMessages ++ [UpstreamMessage.unsubscribe id] }
    else { st with subscriptions := aupdate id (n - 1) st.subscriptions }

/-- State after two concurrent subscribes for the same id (before any ack)
followed by the acknowledgment. -/
def coalesceAfterAck (x : String) : EntityServiceState :=
  svcAck (svcSubscribe (svcSubscribe {} 1 x) 2 x) x

/-- State after the coalesced subscription is acknowledged and one
unsubscribe is issued. -/
def coalesceAfterUnsubscribe (x : String) : EntityServiceState :=
  svcUnsubscribe (coalesceAfterAck x) x

/-- A rectangular viewport (`common.ts`): x, y, width, height. -/
structure Viewport where
  x : ℚ
  y : ℚ
  width : ℚ
  height : ℚ
deriving DecidableEq, Repr

/-- The subview type constructed by `generateViewFromEyeParameters`. -/
inductive SubviewType
  | SINGULAR
deriving DecidableEq, Repr

/-- A serialized subview: its type and its projection matrix
(`Matrix4.toArray` always produces an array of numbers). -/
structure SerializedSubview where
  type : SubviewType
  projectionMatrix : List ℚ
deriving DecidableEq, Repr

/-- Serialized eye parameters: an optional eye pose and an optional field of
view. -/
structure SerializedEyeParameters where
  pose : Option Pose
  fov : Option ℚ
deriving DecidableEq, Repr

/-- Serialized view parameters (`view.ts`): the root viewport, the view pose
and the subview list. -/
structure SerializedViewParameters where
  viewport : Viewport
  pose : Option Pose
  subviews : List SerializedSubview
deriving DecidableEq, Repr

/-- `ViewService.generateViewFromEyeParameters`, translated from `view.ts`
lines 240-255.  The perspective projection
(`PerspectiveFrustum.infiniteProjectionMatrix`) is floating-point
trigonometry and is abstracted as the `projMatrix` parameter, applied to the
fov, aspect ratio and near distance exactly as the source sets them;
`piDiv3` stands for the non-rational default fov `Math.PI / 3`, used when
`eye.fov` is absent or zero (JavaScript `eye.fov || Math.PI / 3`). -/
def generateViewFromEyeParameters (projMatrix : ℚ → ℚ → ℚ → List ℚ)
    (piDiv3 : ℚ) (docW docH : ℚ) (eye : SerializedEyeParameters) :
    SerializedViewParameters :=
  let fov := match eye.fov with
    | none => piDiv3
    | some f => if f = 0 then piDiv3 else f
  { viewport := ⟨0, 0, docW, docH⟩
    pose := eye.pose
    subviews := [{ type := SubviewType.SINGULAR,
                   projectionMatrix := projMatrix fov (docW / docH) (1 / 100) }] }

/-- The `prepareEvent` listener of `ViewService` (manager side), translated
from `view.ts` lines 145-153: with the frame state's view already defined
nothing happens; otherwise absent eye parameters raise the fatal
configuration error, and a defined eye synthesizes the default view (whose
first subview's projection matrix must be an array of numbers — in this
model the synthesized subview list being nonempty). -/
def prepareStateView (projMatrix : ℚ → ℚ → ℚ → List ℚ) (piDiv3 : ℚ)
    (docW docH : ℚ) (eye : Option SerializedEyeParameters)
    (stateView : Option SerializedViewParameters) :
    Except String SerializedViewParameters :=
  match stateView with
  | some v => .ok v
  | none =>
    match eye with
    | none => .error "Unable to construct view configuration: missing eye parameters"
    | some e =>
      let v := generateViewFromEyeParameters projMatrix piDiv3 docW docH e
      match v.subviews with
      | [] => .error "Expected projectionMatrix to be an Array<number>"
      | _ :: _ => .ok v

/-- JSON serialization of a viewport: `JSON.stringify(view.viewport)` with
the `Viewport` object's fixed field order; rational literals stand in for
the JSON number grammar (the encoding is injective, which is all `update`
relies on). -/
def Viewport.toJSONString (v : Viewport) : String :=
  "\x7b\"x\":" ++ toString v.x ++ ",\"y\":" ++ toString v.y ++
    ",\"width\":" ++ toString v.width ++ ",\"height\":" ++ toString v.height ++ "\x7d"

/-- The style `ViewService.update` writes to its element, translated from
`view.ts` lines 266-272: left and bottom in pixels, width and height as
percentages of the document's client size. -/
structure ElementStyle where
  left : String
  bottom : String
  width : String
  height : String
deriving DecidableEq, Repr

/-- The style values `update` assigns for a given viewport and document
client size. -/
def viewStyleFor (docW docH : ℚ) (vp : Viewport) : ElementStyle :=
  { left := toString vp.x ++ "px"
    bottom := toString vp.y ++ "px"
    width := toString (vp.width / docW * 100) ++ "%"
    height := toString (vp.height / docH * 100) ++ "%" }

/-- The fields of `ViewService` that `update` touches: `_current`,
`_currentViewportJSON` and the element's style (`none` when the service has
no DOM element). -/
structure ViewServiceState where
  current : Option SerializedViewParameters := none
  currentViewportJSON : Option String := none
  elementStyle : Option ElementStyle := none
deriving DecidableEq, Repr

/-- `ViewService.update`, translated from `view.ts` lines 257-276: read the
context state's view, serialize its viewport, store the view as `_current`
in every case; when the stored serialization is missing (or empty —
JavaScript falsiness of `!this._currentViewportJSON`) or differs from the
new serialization, record the new serialization, restyle the element when
one is present, and raise `viewportChangeEvent` carrying the previous
viewport.  The second component is the raised event's payload: `none` when
no event was raised, otherwise the previous viewport (itself optional —
undefined on the very first update). -/
def ViewService.update (docW docH : ℚ) (s : ViewServiceState)
    (view : SerializedViewParameters) :
    ViewServiceState × Option (Option Viewport) :=
  let viewportJSON := view.viewport.toJSONString
  let previousViewport := s.current.map (fun c => c.viewport)
  let stale : Bool :=
    match s.currentViewportJSON with
    | none => true
    | some j => j == "" || j != viewportJSON
  if stale then
    ({ current := some view,
       currentViewportJSON := some viewportJSON,
       elementStyle := s.elementStyle.map
         (fun _ => viewStyleFor docW docH view.viewport) },
     some previousViewport)
  else
    ({ s with current := some view }, none)

/-- A concrete view-parameter value for evaluating `ViewService.update`. -/
def demoView : SerializedViewParameters :=
  { viewport := ⟨0, 0, 100, 50⟩, pose := none, subviews := [] }

end Argon

namespace Argon

/-- C1: for every sequence of `EntityPose.update` calls (equivalently, from
every reachable resolver state `s`), the status bitmask obeys the transition
table: KNOWN is set iff the newly resolved pose is defined; FOUND is set iff
the previous pose was undefined and the new pose is defined; LOST is set iff
the previous pose was defined and the new pose is undefined; at most one of
FOUND and LOST is set per call, and both are clear when definedness is
unchanged; an undefined-to-undefined transition yields status 0. -/
theorem entityPose_update_status_transition_table
    (resolvePose : ℚ → Option Pose) (s : EntityPoseState) (t : ℚ) :
    hasFlag (EntityPose.update resolvePose s t).status PoseStatus.KNOWN
      = (resolvePose t).isSome ∧
    hasFlag (EntityPose.update resolvePose s t).status PoseStatus.FOUND
      = ((resolvePose t).isSome && !(hasFlag s.status PoseStatus.KNOWN)) ∧
    hasFlag (EntityPose.update resolvePose s t).status PoseStatus.LOST
      = (!(resolvePose t).isSome && hasFlag s.status PoseStatus.KNOWN) ∧
    ¬(hasFlag (EntityPose.update resolvePose s t).status PoseStatus.FOUND = true ∧
      hasFlag (EntityPose.update resolvePose s t).status PoseStatus.LOST = true) ∧
    ((resolvePose t).isSome = hasFlag s.status PoseStatus.KNOWN →
      hasFlag (EntityPose.update resolvePose s t).status PoseStatus.FOUND = false ∧
      hasFlag (EntityPose.update resolvePose s t).status PoseStatus.LOST = false) ∧
    ((resolvePose t).isSome = false → hasFlag s.status PoseStatus.KNOWN = false →
      (EntityPose.update resolvePose s t).status = 0) := by
  cases hk : (resolvePose t).isSome <;>
    cases hp : hasFlag s.status PoseStatus.KNOWN <;>
      cases hc1 : decide ((resolvePose t).map Pose.position ≠ s.position) <;>
        cases hc2 : decide ((resolvePose t).map Pose.orientation ≠ s.orientation) <;>
          simp only [EntityPose.update, hk, hp, hc1, hc2, cond_true, cond_false] <;> decide

/-- C1 witness: the transition table evaluated on the concrete ball scenario
at t = 1 (previous undefined, new pose defined). -/
theorem entityPose_update_status_transition_table_witness :
    (ballResolve 1).isSome = true ∧ hasFlag ballS1.status PoseStatus.KNOWN = false ∧
    hasFlag (EntityPose.update ballResolve ballS1 1).status PoseStatus.FOUND = true := by
  refine ⟨by decide, by decide, ?_⟩
  have h := entityPose_update_status_transition_table ballResolve ballS1 1
  rw [h.2.1]
  decide

/-- C2 counterexample: in the spec's own exact-value scenario (undefined at
t = 0, defined at t = 1, undefined at t = 2), the third update fires LOST but
does not set CHANGED, refuting the claim that CHANGED is set whenever FOUND or
LOST fired on that call. -/
theorem entityPose_lost_without_changed_counterexample :
    hasFlag ballS3.status PoseStatus.LOST = true ∧
    hasFlag ballS3.status PoseStatus.CHANGED = false := by decide

/-- C2 (amended): on every `EntityPose.update` call, CHANGED is set iff the
pose was defined at both the previous and current time and the position or
orientation differ beyond the chosen tolerance, OR iff FOUND fired on that
call (LOST alone does not set CHANGED); and for an entity undefined at t = 0,
defined at t = 1, and undefined at t = 2, updating at t = 0, 1, 2 in sequence
yields statuses 0, KNOWN|FOUND|CHANGED, and LOST respectively. -/
theorem entityPose_changed_rule_and_ball_sequence :
    (∀ (resolvePose : ℚ → Option Pose) (s : EntityPoseState) (t : ℚ),
      hasFlag (EntityPose.update resolvePose s t).status PoseStatus.CHANGED
        = (((resolvePose t).isSome && hasFlag s.status PoseStatus.KNOWN &&
            (decide ((resolvePose t).map Pose.position ≠ s.position) ||
             decide ((resolvePose t).map Pose.orientation ≠ s.orientation))) ||
           ((resolvePose t).isSome && !(hasFlag s.status PoseStatus.KNOWN)))) ∧
    ballS1.status = 0 ∧
    ballS2.status = (PoseStatus.KNOWN ||| PoseStatus.FOUND ||| PoseStatus.CHANGED) ∧
    ballS3.status = PoseStatus.LOST := by
  refine ⟨?_, by decide, by decide, by decide⟩
  intro resolvePose s t
  cases hk : (resolvePose t).isSome <;>
    cases hp : hasFlag s.status PoseStatus.KNOWN <;>
      cases hc1 : decide ((resolvePose t).map Pose.position ≠ s.position) <;>
        cases hc2 : decide ((resolvePose t).map Pose.orientation ≠ s.orientation) <;>
          simp only [EntityPose.update, hk, hp, hc1, hc2, cond_true, cond_false] <;> decide

/-- Unfolding equation of `resolveAux` when the id was already visited: the
cycle guard fires. -/
theorem resolveAux_mem (g : FrameGraph) (vis : List String) (i : String)
    (ta : Frame) (t : ℚ) (h : i ∈ vis) :
    resolveAux g vis i ta t = .error .CyclicFrameError := by
  rw [resolveAux.eq_def, dif_pos h]

/-- Unfolding equation of `resolveAux` for an id that is not an entity of the
graph: the pose is unknown. -/
theorem resolveAux_lookup_none (g : FrameGraph) (vis : List String) (i : String)
    (ta : Frame) (t : ℚ) (hvis : i ∉ vis) (h : alookup i g = none) :
    resolveAux g vis i ta t = .ok none := by
  rw [resolveAux.eq_def, dif_neg hvis]
  split
  · rfl
  · next ent heq => rw [h] at heq; cases heq

/-- Unfolding equation of `resolveAux` for an unvisited id present in the
graph. -/
theorem resolveAux_lookup_some (g : FrameGraph) (vis : List String) (i : String)
    (ta : Frame) (t : ℚ) (ei : GraphEntity) (hvis : i ∉ vis)
    (hli : alookup i g = some ei) :
    resolveAux g vis i ta t =
      (if ei.frame = ta then .ok (ei.poseAt t)
       else match ei.frame with
        | .fixed _ => .ok none
        | .entity pid =>
          match resolveAux g (i :: vis) pid ta t with
          | .error e => .error e
          | .ok none => .ok none
          | .ok (some parentPose) =>
            .ok ((ei.poseAt t).map (fun lp => parentPose.compose lp))) := by
  rw [resolveAux.eq_def, dif_neg hvis]
  split
  · next heq => rw [hli] at heq; cases heq
  · next ent heq =>
    rw [hli] at heq
    injection heq with heq2
    subst heq2
    rfl

/-- Unfolding equation of `resolveAux` when the entity's frame equals the
target: the local pose is returned directly. -/
theorem resolveAux_target_step (g : FrameGraph) (vis : List String) (i : String)
    (ta : Frame) (t : ℚ) (ei : GraphEntity) (hvis : i ∉ vis)
    (hli : alookup i g = some ei) (hfi : ei.frame = ta) :
    resolveAux g vis i ta t = .ok (ei.poseAt t) := by
  rw [resolveAux_lookup_some g vis i ta t ei hvis hli, if_pos hfi]

/-- Unfolding equation of `resolveAux` when the chain tops out at a fixed
frame other than the target: the pose is unknown. -/
theorem resolveAux_fixed_step (g : FrameGraph) (vis : List String) (i : String)
    (ta : Frame) (t : ℚ) (ei : GraphEntity) (f : FixedFrame) (hvis : i ∉ vis)
    (hli : alookup i g = some ei) (hfi : ei.frame = .fixed f) (hne : Frame.fixed f ≠ ta) :
    resolveAux g vis i ta t = .ok none := by
  rw [resolveAux_lookup_some g vis i ta t ei hvis hli,
      if_neg (by rw [hfi]; exact hne), hfi]

/-- Unfolding equation of `resolveAux` across one entity-frame edge: visit
the id, then compose with the recursive resolution of its parent frame. -/
theorem resolveAux_entity_step (g : FrameGraph) (vis : List String) (i : String)
    (ta : Frame) (t : ℚ) (ei : GraphEntity) (pid : String) (hvis : i ∉ vis)
    (hli : alookup i g = some ei) (hfi : ei.frame = .entity pid)
    (hne : Frame.entity pid ≠ ta) :
    resolveAux g vis i ta t =
      match resolveAux g (i :: vis) pid ta t with
      | .error e => .error e
      | .ok none => .ok none
      | .ok (some parentPose) =>
        .ok ((ei.poseAt t).map (fun lp => parentPose.compose lp)) := by
  rw [resolveAux_lookup_some g vis i ta t ei hvis hli,
      if_neg (by rw [hfi]; exact hne), hfi]

/-- Resolution started at any member of a finite id set that is closed under
the entity-frame edge (and avoids the target frame) raises
`CyclicFrameError`: each step shrinks the closed set's part outside the
visited list by one, so the visited guard must fire within that many
steps. -/
theorem resolveAux_error_of_cycle_set (g : FrameGraph) (target : Frame) (t : ℚ)
    (cycleIds : List String)
    (H : ∀ c ∈ cycleIds, ∃ e nc, alookup c g = some e ∧
      e.frame = Frame.entity nc ∧ nc ∈ cycleIds ∧ target ≠ Frame.entity nc) :
    ∀ (n : Nat) (a : String) (vis : List String),
      (cycleIds.filter (fun x => !(decide (x ∈ vis)))).length ≤ n → a ∈ cycleIds →
      resolveAux g vis a target t = .error .CyclicFrameError := by
  intro n
  induction n with
  | zero =>
    intro a vis hlen ha
    by_cases hv : a ∈ vis
    · exact resolveAux_mem g vis a target t hv
    · exfalso
      have hmem : a ∈ cycleIds.filter (fun x => !(decide (x ∈ vis))) :=
        List.mem_filter.mpr ⟨ha, by simp [hv]⟩
      have := List.length_pos_of_mem hmem
      omega
  | succ m ih =>
    intro a vis hlen ha
    by_cases hv : a ∈ vis
    · exact resolveAux_mem g vis a target t hv
    · obtain ⟨e, nc, he, hf, hncS, hnt⟩ := H a ha
      rw [resolveAux_entity_step g vis a target t e nc hv he hf (Ne.symm hnt)]
      have hdec : (cycleIds.filter (fun x => !(decide (x ∈ a :: vis)))).length
          < (cycleIds.filter (fun x => !(decide (x ∈ vis)))).length :=
        length_filter_lt_of_mem a (by simp [hv]) (by simp)
          (by intro x hx
              simp only [Bool.not_eq_eq_eq_not, Bool.not_true, decide_eq_false_iff_not,
                List.mem_cons, not_or] at hx ⊢
              exact hx.2) ha
      rw [ih nc (a :: vis) (by omega) hncS]

/-- C3: for every reference-frame graph in which an entity's ancestor frame
chain revisits an id — the entity belongs to a set of ids each of whose
reference frames is the entity frame of another member of the set, a frame
cycle of any length (self-loops, two-cycles, longer cycles) none of whose
member frames is the resolution target — one pose resolution call terminates
with `CyclicFrameError` (reported to the caller as the error value, never by
unbounded recursion or a crash: every function of this model is total), and
this holds for every entity on the cycle. -/
theorem cyclic_frame_chain_raises_CyclicFrameError
    (g : FrameGraph) (target : Frame) (t : ℚ) (cycleIds : List String)
    (H : ∀ c ∈ cycleIds, ∃ e nc, alookup c g = some e ∧
      e.frame = Frame.entity nc ∧ nc ∈ cycleIds ∧ target ≠ Frame.entity nc) :
    ∀ a ∈ cycleIds, resolve g a target t = .error .CyclicFrameError := by
  intro a ha
  exact resolveAux_error_of_cycle_set g target t cycleIds H
    ((cycleIds.filter (fun x => !(decide (x ∈ ([] : List String))))).length)
    a [] (le_refl _) ha

/-- C3 witness: on the concrete three-entity cycle A3→B3→C3→A3 and the
two-entity cycle A→B→A, resolving any entity on the cycle toward the fixed
global frame raises `CyclicFrameError`. -/
theorem cyclic_frame_chain_raises_CyclicFrameError_witness :
    resolve cycleGraph3 "A3" (Frame.fixed FixedFrame.FIXED) 0
        = .error .CyclicFrameError ∧
    resolve cycleGraph3 "B3" (Frame.fixed FixedFrame.FIXED) 0
        = .error .CyclicFrameError ∧
    resolve cycleGraph3 "C3" (Frame.fixed FixedFrame.FIXED) 0
        = .error .CyclicFrameError ∧
    resolve cycleGraphAB "A" (Frame.fixed FixedFrame.FIXED) 0
        = .error .CyclicFrameError ∧
    resolve cycleGraphAB "B" (Frame.fixed FixedFrame.FIXED) 0
        = .error .CyclicFrameError := by
  have hH3 : ∀ c ∈ ["A3", "B3", "C3"], ∃ e nc, alookup c cycleGraph3 = some e ∧
      e.frame = Frame.entity nc ∧ nc ∈ ["A3", "B3", "C3"] ∧
      Frame.fixed FixedFrame.FIXED ≠ Frame.entity nc := by
    intro c hc
    simp only [List.mem_cons, List.not_mem_nil, or_false] at hc
    rcases hc with rfl | rfl | rfl
    · exact ⟨entA3, "B3", rfl, rfl, by simp, by simp⟩
    · exact ⟨entB3, "C3", rfl, rfl, by simp, by simp⟩
    · exact ⟨entC3, "A3", rfl, rfl, by simp, by simp⟩
  have hH2 : ∀ c ∈ ["A", "B"], ∃ e nc, alookup c cycleGraphAB = some e ∧
      e.frame = Frame.entity nc ∧ nc ∈ ["A", "B"] ∧
      Frame.fixed FixedFrame.FIXED ≠ Frame.entity nc := by
    intro c hc
    simp only [List.mem_cons, List.not_mem_nil, or_false] at hc
    rcases hc with rfl | rfl
    · exact ⟨entA, "B", rfl, rfl, by simp, by simp⟩
    · exact ⟨entB, "A", rfl, rfl, by simp, by simp⟩
  have h3 := cyclic_frame_chain_raises_CyclicFrameError cycleGraph3
    (Frame.fixed FixedFrame.FIXED) 0 ["A3", "B3", "C3"] hH3
  have h2 := cyclic_frame_chain_raises_CyclicFrameError cycleGraphAB
    (Frame.fixed FixedFrame.FIXED) 0 ["A", "B"] hH2
  exact ⟨h3 "A3" (by simp), h3 "B3" (by simp), h3 "C3" (by simp),
         h2 "A" (by simp), h2 "B" (by simp)⟩

/-- Unfolding equation of `frameChainAux` on a visited id: no links. -/
theorem frameChainAux_mem (g : FrameGraph) (vis : List String) (i : String)
    (ta : Frame) (h : i ∈ vis) : frameChainAux g vis i ta = [] := by
  rw [frameChainAux.eq_def, dif_pos h]

/-- Unfolding equation of `frameChainAux` on an id absent from the graph. -/
theorem frameChainAux_lookup_none (g : FrameGraph) (vis : List String) (i : String)
    (ta : Frame) (hvis : i ∉ vis) (h : alookup i g = none) :
    frameChainAux g vis i ta = [] := by
  rw [frameChainAux.eq_def, dif_neg hvis]
  split
  · rfl
  · next ent heq => rw [h] at heq; cases heq

/-- Unfolding equation of `frameChainAux` on an unvisited id of the graph. -/
theorem frameChainAux_lookup_some (g : FrameGraph) (vis : List String) (i : String)
    (ta : Frame) (ei : GraphEntity) (hvis : i ∉ vis) (hli : alookup i g = some ei) :
    frameChainAux g vis i ta =
      (if ei.frame = ta then [i]
       else match ei.frame with
        | .fixed _ => []
        | .entity pid => i :: frameChainAux g (i :: vis) pid ta) := by
  rw [frameChainAux.eq_def, dif_neg hvis]
  split
  · next heq => rw [hli] at heq; cases heq
  · next ent heq =>
    rw [hli] at heq
    injection heq with heq2
    subst heq2
    rfl

/-- Resolution never raises on a graph whose entity-frame edges carry a
strictly decreasing rank: the visited set only ever holds ids of strictly
larger rank, so the cycle guard can never fire. -/
theorem resolveAux_ne_error_of_rank (g : FrameGraph) (rank : String → Nat)
    (hrank : ∀ id ent pid, alookup id g = some ent →
      ent.frame = Frame.entity pid → rank pid < rank id) :
    ∀ (n : Nat) (i : String) (vis : List String) (ta : Frame) (t : ℚ),
      rank i ≤ n → (∀ v ∈ vis, rank i < rank v) →
      ∀ e, resolveAux g vis i ta t ≠ .error e := by
  intro n
  induction n with
  | zero =>
    intro i vis ta t hle hvis e
    have hiv : i ∉ vis := fun h => absurd (hvis i h) (lt_irrefl _)
    cases hli : alookup i g with
    | none => rw [resolveAux_lookup_none g vis i ta t hiv hli]; simp
    | some ei =>
      by_cases hft : ei.frame = ta
      · rw [resolveAux_target_step g vis i ta t ei hiv hli hft]; simp
      · cases hfr : ei.frame with
        | fixed f =>
          rw [resolveAux_fixed_step g vis i ta t ei f hiv hli hfr (hfr ▸ hft)]
          simp
        | entity pid =>
          have := hrank i ei pid hli hfr
          omega
  | succ m ih =>
    intro i vis ta t hle hvis e
    have hiv : i ∉ vis := fun h => absurd (hvis i h) (lt_irrefl _)
    cases hli : alookup i g with
    | none => rw [resolveAux_lookup_none g vis i ta t hiv hli]; simp
    | some ei =>
      by_cases hft : ei.frame = ta
      · rw [resolveAux_target_step g vis i ta t ei hiv hli hft]; simp
      · cases hfr : ei.frame with
        | fixed f =>
          rw [resolveAux_fixed_step g vis i ta t ei f hiv hli hfr (hfr ▸ hft)]
          simp
        | entity pid =>
          rw [resolveAux_entity_step g vis i ta t ei pid hiv hli hfr (hfr ▸ hft)]
          have hlt := hrank i ei pid hli hfr
          have hinner := ih pid (i :: vis) ta t (by omega)
            (by intro v hv
                rcases List.mem_cons.mp hv with h | h
                · exact h ▸ hlt
                · exact lt_trans hlt (hvis v h))
          rcases hres : resolveAux g (i :: vis) pid ta t with e2 | op
          · exact absurd hres (hinner e2)
          · cases op <;> simp

/-- If some link of the consulted frame chain lacks a defined local pose at
`t`, resolution returns undefined (given a rank certifying acyclicity). -/
theorem resolveAux_ok_none_of_chain_undefined (g : FrameGraph) (rank : String → Nat)
    (hrank : ∀ id ent pid, alookup id g = some ent →
      ent.frame = Frame.entity pid → rank pid < rank id) :
    ∀ (n : Nat) (i : String) (vis : List String) (ta : Frame) (t : ℚ),
      rank i ≤ n → (∀ v ∈ vis, rank i < rank v) →
      (∃ c ∈ frameChainAux g vis i ta,
        ∃ ec, alookup c g = some ec ∧ ec.poseAt t = none) →
      resolveAux g vis i ta t = .ok none := by
  intro n
  induction n with
  | zero =>
    intro i vis ta t hle hvis hchain
    have hiv : i ∉ vis := fun h => absurd (hvis i h) (lt_irrefl _)
    cases hli : alookup i g with
    | none => exact resolveAux_lookup_none g vis i ta t hiv hli
    | some ei =>
      by_cases hft : ei.frame = ta
      · rw [resolveAux_target_step g vis i ta t ei hiv hli hft]
        obtain ⟨c, hc, ec, hec, hpose⟩ := hchain
        rw [frameChainAux_lookup_some g vis i ta ei hiv hli, if_pos hft] at hc
        rcases List.mem_singleton.mp hc with rfl
        rw [hli] at hec
        injection hec with hec2
        subst hec2
        rw [hpose]
      · cases hfr : ei.frame with
        | fixed f => exact resolveAux_fixed_step g vis i ta t ei f hiv hli hfr (hfr ▸ hft)
        | entity pid =>
          have := hrank i ei pid hli hfr
          omega
  | succ m ih =>
    intro i vis ta t hle hvis hchain
    have hiv : i ∉ vis := fun h => absurd (hvis i h) (lt_irrefl _)
    cases hli : alookup i g with
    | none => exact resolveAux_lookup_none g vis i ta t hiv hli
    | some ei =>
      by_cases hft : ei.frame = ta
      · rw [resolveAux_target_step g vis i ta t ei hiv hli hft]
        obtain ⟨c, hc, ec, hec, hpose⟩ := hchain
        rw [frameChainAux_lookup_some g vis i ta ei hiv hli, if_pos hft] at hc
        rcases List.mem_singleton.mp hc with rfl
        rw [hli] at hec
        injection hec with hec2
        subst hec2
        rw [hpose]
      · cases hfr : ei.frame with
        | fixed f => exact resolveAux_fixed_step g vis i ta t ei f hiv hli hfr (hfr ▸ hft)
        | entity pid =>
          rw [resolveAux_entity_step g vis i ta t ei pid hiv hli hfr (hfr ▸ hft)]
          have hlt := hrank i ei pid hli hfr
          have hvis2 : ∀ v ∈ i :: vis, rank pid < rank v := by
            intro v hv
            rcases List.mem_cons.mp hv with h | h
            · exact h ▸ hlt
            · exact lt_trans hlt (hvis v h)
          obtain ⟨c, hc, ec, hec, hpose⟩ := hchain
          rw [frameChainAux_lookup_some g vis i ta ei hiv hli,
            if_neg hft, hfr] at hc
          simp only [List.mem_cons] at hc
          rcases hc with hceq | hctail
          · -- the undefined link is the current entity itself
            rw [hceq] at hec
            rw [hli] at hec
            injection hec with hec2
            subst hec2
            rcases hres : resolveAux g (i :: vis) pid ta t with e2 | op
            · exact absurd hres
                (resolveAux_ne_error_of_rank g rank hrank (rank pid) pid (i :: vis)
                  ta t (le_refl _) hvis2 e2)
            · cases op with
              | none => rfl
              | some pp => rw [hpose]; rfl
          · -- the undefined link lies deeper in the chain
            have hinner := ih pid (i :: vis) ta t (by omega) hvis2
              ⟨c, hctail, ec, hec, hpose⟩
            rw [hinner]

/-- A key in a map's key list has some binding. -/
theorem alookup_isSome_of_mem_akeys {α β : Type _} [DecidableEq α] {x : α}
    {m : List (α × β)} (h : x ∈ akeys m) : ∃ w, alookup x m = some w := by
  induction m with
  | nil => simp [akeys] at h
  | cons kv rest ih =>
    by_cases hk : x = kv.fst
    · exact ⟨kv.snd, by simp [alookup, hk]⟩
    · simp only [akeys, List.map_cons, List.mem_cons] at h
      rcases h with h | h
      · exact absurd h hk
      · obtain ⟨w, hw⟩ := ih h
        exact ⟨w, by simp [alookup, hk, hw]⟩

/-- Lookup after consing one binding. -/
theorem alookup_cons {α β : Type _} [DecidableEq α] (k : α) (v : β)
    (m : List (α × β)) (x : α) :
    alookup x ((k, v) :: m) = if x = k then some v else alookup x m := rfl

/-- The normalized cache is stamped with the requested time. -/
theorem normalize_cacheTime (st : ProviderState) (t : ℚ) :
    (st.normalize t).cacheTime = some t := by
  unfold ProviderState.normalize
  split <;> simp_all

/-- Normalizing a cache already stamped with the requested time is a no-op. -/
theorem normalize_of_stamped {st : ProviderState} {t : ℚ}
    (h : st.cacheTime = some t) : st.normalize t = st := by
  unfold ProviderState.normalize
  rw [if_pos h]

/-- Normalization never changes the compute count. -/
theorem normalize_computeCount (st : ProviderState) (t : ℚ) :
    (st.normalize t).computeCount = st.computeCount := by
  unfold ProviderState.normalize
  split <;> rfl

/-- Discarding a stale cache yields a coherent (empty) cache at the new
time. -/
theorem normalize_coherent_of_stale {g : FrameGraph} {t : ℚ} {st : ProviderState}
    (h : st.cacheTime ≠ some t) : CacheCoherent g t (st.normalize t) := by
  unfold ProviderState.normalize
  rw [if_neg h]
  exact ⟨rfl, by intro x w hw; simp [alookup] at hw⟩

/-- A coherent cache normalizes to itself. -/
theorem normalize_of_coherent {g : FrameGraph} {t : ℚ} {st : ProviderState}
    (h : CacheCoherent g t st) : st.normalize t = st := normalize_of_stamped h.1

/-- The cache state after a cached-serialization call is stamped with the
requested time. -/
theorem gc_cacheTime (g : FrameGraph) (st : ProviderState) (id : String) (t : ℚ) :
    (getCachedSerializedEntityState g st id t).snd.cacheTime = some t := by
  unfold getCachedSerializedEntityState
  cases h : alookup id (st.normalize t).entityStateCache <;>
    simp [h, normalize_cacheTime]

/-- After a cached-serialization call the returned value is in the cache. -/
theorem gc_lookup_self (g : FrameGraph) (st : ProviderState) (id : String) (t : ℚ) :
    alookup id (getCachedSerializedEntityState g st id t).snd.entityStateCache
      = some (getCachedSerializedEntityState g st id t).fst := by
  unfold getCachedSerializedEntityState
  cases h : alookup id (st.normalize t).entityStateCache with
  | some v => simp [h]
  | none => simp [h, alookup_cons]

/-- A cached-serialization call on a stamped cache only adds entries. -/
theorem gc_extends_of_stamped {g : FrameGraph} {t : ℚ} {st : ProviderState}
    (h : st.cacheTime = some t) (id : String) :
    cacheExtends st.entityStateCache
      (getCachedSerializedEntityState g st id t).snd.entityStateCache := by
  unfold getCachedSerializedEntityState
  rw [normalize_of_stamped h]
  cases hl : alookup id st.entityStateCache with
  | some v => simp only [hl]; exact fun x w hx => hx
  | none =>
    simp only [hl]
    intro x w hx
    rw [alookup_cons]
    by_cases hx2 : x = id
    · subst hx2; rw [hx] at hl; cases hl
    · rw [if_neg hx2]; exact hx

/-- A cached-serialization call that hits a stamped cache changes nothing. -/
theorem gc_hit (g : FrameGraph) {t : ℚ} {v : Option SerializedEntityState}
    {st : ProviderState} (hst : st.cacheTime = some t) {id : String}
    (h : alookup id st.entityStateCache = some v) :
    getCachedSerializedEntityState g st id t = (v, st) := by
  unfold getCachedSerializedEntityState
  rw [normalize_of_stamped hst]
  simp only [h]

/-- On a coherent (or freshly discarded) cache, a cached-serialization call
returns exactly the serialization of the id at the stamped time, and keeps
the cache coherent. -/
theorem gc_coherent (g : FrameGraph) (t : ℚ) (st : ProviderState)
    (h : CacheCoherent g t (st.normalize t)) (id : String) :
    (getCachedSerializedEntityState g st id t).fst = getSerializedEntityState g id t ∧
    CacheCoherent g t (getCachedSerializedEntityState g st id t).snd := by
  unfold getCachedSerializedEntityState
  cases hl : alookup id (st.normalize t).entityStateCache with
  | some v =>
    simp only [hl]
    exact ⟨h.2 id v hl, h⟩
  | none =>
    simp only [hl]
    refine ⟨by simp, normalize_cacheTime st t, ?_⟩
    intro x w hx
    rw [alookup_cons] at hx
    by_cases hx2 : x = id
    · subst hx2
      rw [if_pos rfl] at hx
      injection hx with h2
      rw [← h2]
    · rw [if_neg hx2] at hx
      exact h.2 x w hx

/-- Unfolding equation of `includeAncestors` when the guard fails: the
ancestor is already present, excluded, or not an entity of the graph. -/
theorem includeAncestors_stop (g : FrameGraph) (st : ProviderState)
    (outMap : EntityStateMap) (t : ℚ) (excluded : List String) (fid : String)
    (h : ¬(fid ∈ akeys g ∧ fid ∉ akeys outMap ∧ fid ∉ excluded)) :
    includeAncestors g st outMap t excluded fid = (outMap, st) := by
  rw [includeAncestors.eq_def, dif_neg h]

/-- Unfolding equation of `includeAncestors` on a null serialization: insert
the null entry and stop. -/
theorem includeAncestors_insert_none (g : FrameGraph) (st : ProviderState)
    (outMap : EntityStateMap) (t : ℚ) (excluded : List String) (fid : String)
    (h : fid ∈ akeys g ∧ fid ∉ akeys outMap ∧ fid ∉ excluded)
    (hr : (getCachedSerializedEntityState g st fid t).fst = none) :
    includeAncestors g st outMap t excluded fid =
      ((fid, (getCachedSerializedEntityState g st fid t).fst) :: outMap,
        (getCachedSerializedEntityState g st fid t).snd) := by
  rw [includeAncestors.eq_def, dif_pos h]
  simp only [hr]

/-- Unfolding equation of `includeAncestors` on a state anchored on a fixed
frame: insert the entry and stop. -/
theorem includeAncestors_insert_fixed (g : FrameGraph) (st : ProviderState)
    (outMap : EntityStateMap) (t : ℚ) (excluded : List String) (fid : String)
    (s : SerializedEntityState) (f : FixedFrame)
    (h : fid ∈ akeys g ∧ fid ∉ akeys outMap ∧ fid ∉ excluded)
    (hr : (getCachedSerializedEntityState g st fid t).fst = some s)
    (hf : s.referenceFrame = Frame.fixed f) :
    includeAncestors g st outMap t excluded fid =
      ((fid, (getCachedSerializedEntityState g st fid t).fst) :: outMap,
        (getCachedSerializedEntityState g st fid t).snd) := by
  rw [includeAncestors.eq_def, dif_pos h]
  simp only [hr, hf]

/-- Unfolding equation of `includeAncestors` on a state framed by another
entity: insert the entry and walk to that parent. -/
theorem includeAncestors_insert_entity (g : FrameGraph) (st : ProviderState)
    (outMap : EntityStateMap) (t : ℚ) (excluded : List String) (fid : String)
    (s : SerializedEntityState) (pfid : String)
    (h : fid ∈ akeys g ∧ fid ∉ akeys outMap ∧ fid ∉ excluded)
    (hr : (getCachedSerializedEntityState g st fid t).fst = some s)
    (hf : s.referenceFrame = Frame.entity pfid) :
    includeAncestors g st outMap t excluded fid =
      includeAncestors g (getCachedSerializedEntityState g st fid t).snd
        ((fid, (getCachedSerializedEntityState g st fid t).fst) :: outMap)
        t excluded pfid := by
  rw [includeAncestors.eq_def, dif_pos h]
  simp only [hr, hf]

/-- On a stamped cache the ancestor walk keeps the stamp and only grows the
cache. -/
theorem includeAncestors_stamped_pres (g : FrameGraph) :
    ∀ (st : ProviderState) (outMap : EntityStateMap) (t : ℚ)
      (excluded : List String) (fid : String),
      st.cacheTime = some t →
      (includeAncestors g st outMap t excluded fid).snd.cacheTime = some t ∧
      cacheExtends st.entityStateCache
        (includeAncestors g st outMap t excluded fid).snd.entityStateCache := by
  intro st outMap t excluded fid
  induction st, outMap, t, excluded, fid using includeAncestors.induct g with
  | case1 st outMap t excluded fid h s hr pfid hf ih =>
    intro hst
    rw [includeAncestors_insert_entity _ _ _ _ _ _ s pfid h hr hf]
    obtain ⟨ihtime, ihext⟩ := ih (gc_cacheTime _ _ _ _)
    exact ⟨ihtime, fun x v hx => ihext x v (gc_extends_of_stamped hst _ x v hx)⟩
  | case2 st outMap t excluded fid h s hr f hf =>
    intro hst
    rw [includeAncestors_insert_fixed _ _ _ _ _ _ s f h hr hf]
    exact ⟨gc_cacheTime _ _ _ _, gc_extends_of_stamped hst _⟩
  | case3 st outMap t excluded fid h hr =>
    intro hst
    rw [includeAncestors_insert_none _ _ _ _ _ _ h hr]
    exact ⟨gc_cacheTime _ _ _ _, gc_extends_of_stamped hst _⟩
  | case4 st outMap t excluded fid h =>
    intro hst
    rw [includeAncestors_stop _ _ _ _ _ _ h]
    exact ⟨hst, fun x v hx => hx⟩

/-- Replaying an ancestor walk against a stamped cache that already holds
every entry the walk recorded changes nothing: it produces the same map and
leaves the replayed cache exactly as it was. -/
theorem includeAncestors_replay (g : FrameGraph) :
    ∀ (st : ProviderState) (outMap : EntityStateMap) (t : ℚ)
      (excluded : List String) (fid : String),
      ∀ stB : ProviderState, stB.cacheTime = some t →
      cacheExtends (includeAncestors g st outMap t excluded fid).snd.entityStateCache
        stB.entityStateCache →
      includeAncestors g stB outMap t excluded fid =
        ((includeAncestors g st outMap t excluded fid).fst, stB) := by
  intro st outMap t excluded fid
  induction st, outMap, t, excluded, fid using includeAncestors.induct g with
  | case1 st outMap t excluded fid h s hr pfid hf ih =>
    intro stB hstB hext
    rw [includeAncestors_insert_entity _ _ _ _ _ _ s pfid h hr hf] at hext ⊢
    have hself : alookup fid
        (getCachedSerializedEntityState g st fid t).snd.entityStateCache
        = some (getCachedSerializedEntityState g st fid t).fst :=
      gc_lookup_self g st fid t
    have hpers := (includeAncestors_stamped_pres g
      (getCachedSerializedEntityState g st fid t).snd
      ((fid, (getCachedSerializedEntityState g st fid t).fst) :: outMap)
      t excluded pfid (gc_cacheTime g st fid t)).2
    have hlookB := hext _ _ (hpers _ _ hself)
    have hgB := gc_hit g hstB hlookB
    rw [includeAncestors_insert_entity g stB outMap t excluded fid s pfid h
          (by rw [hgB]; exact hr) hf, hgB]
    exact ih stB hstB hext
  | case2 st outMap t excluded fid h s hr f hf =>
    intro stB hstB hext
    rw [includeAncestors_insert_fixed _ _ _ _ _ _ s f h hr hf] at hext ⊢
    have hself : alookup fid
        (getCachedSerializedEntityState g st fid t).snd.entityStateCache
        = some (getCachedSerializedEntityState g st fid t).fst :=
      gc_lookup_self g st fid t
    have hlookB := hext _ _ hself
    have hgB := gc_hit g hstB hlookB
    rw [includeAncestors_insert_fixed g stB outMap t excluded fid s f h
          (by rw [hgB]; exact hr) hf, hgB]
  | case3 st outMap t excluded fid h hr =>
    intro stB hstB hext
    rw [includeAncestors_insert_none _ _ _ _ _ _ h hr] at hext ⊢
    have hself : alookup fid
        (getCachedSerializedEntityState g st fid t).snd.entityStateCache
        = some (getCachedSerializedEntityState g st fid t).fst :=
      gc_lookup_self g st fid t
    have hlookB := hext _ _ hself
    have hgB := gc_hit g hstB hlookB
    rw [includeAncestors_insert_none g stB outMap t excluded fid h
          (by rw [hgB]; exact hr), hgB]
  | case4 st outMap t excluded fid h =>
    intro stB hstB hext
    rw [includeAncestors_stop g st _ _ _ _ h, includeAncestors_stop g stB _ _ _ _ h]

/-- On a coherent cache the ancestor walk keeps the cache coherent, and
every entry it adds to the output map is the serialization of its key at the
stamped time. -/
theorem includeAncestors_coherent (g : FrameGraph) :
    ∀ (st : ProviderState) (outMap : EntityStateMap) (t : ℚ)
      (excluded : List String) (fid : String),
      CacheCoherent g t st →
      CacheCoherent g t (includeAncestors g st outMap t excluded fid).snd ∧
      (∀ x w, alookup x (includeAncestors g st outMap t excluded fid).fst = some w →
        alookup x outMap = some w ∨ w = getSerializedEntityState g x t) := by
  intro st outMap t excluded fid
  induction st, outMap, t, excluded, fid using includeAncestors.induct g with
  | case1 st outMap t excluded fid h s hr pfid hf ih =>
    intro hcoh
    have hgc := gc_coherent g t st
      ((normalize_of_coherent hcoh).symm ▸ hcoh) fid
    rw [includeAncestors_insert_entity _ _ _ _ _ _ s pfid h hr hf]
    obtain ⟨ihcoh, ihvals⟩ := ih hgc.2
    refine ⟨ihcoh, ?_⟩
    intro x w hx
    rcases ihvals x w hx with hx2 | hx2
    · rw [alookup_cons] at hx2
      by_cases hxf : x = fid
      · rw [if_pos hxf] at hx2
        injection hx2 with h2
        right
        rw [← h2, hgc.1, hxf]
      · rw [if_neg hxf] at hx2
        exact Or.inl hx2
    · exact Or.inr hx2
  | case2 st outMap t excluded fid h s hr f hf =>
    intro hcoh
    have hgc := gc_coherent g t st
      ((normalize_of_coherent hcoh).symm ▸ hcoh) fid
    rw [includeAncestors_insert_fixed _ _ _ _ _ _ s f h hr hf]
    refine ⟨hgc.2, ?_⟩
    intro x w hx
    rw [alookup_cons] at hx
    by_cases hxf : x = fid
    · rw [if_pos hxf] at hx
      injection hx with h2
      right
      rw [← h2, hgc.1, hxf]
    · rw [if_neg hxf] at hx
      exact Or.inl hx
  | case3 st outMap t excluded fid h hr =>
    intro hcoh
    have hgc := gc_coherent g t st
      ((normalize_of_coherent hcoh).symm ▸ hcoh) fid
    rw [includeAncestors_insert_none _ _ _ _ _ _ h hr]
    refine ⟨hgc.2, ?_⟩
    intro x w hx
    rw [alookup_cons] at hx
    by_cases hxf : x = fid
    · rw [if_pos hxf] at hx
      injection hx with h2
      right
      rw [← h2, hgc.1, hxf]
    · rw [if_neg hxf] at hx
      exact Or.inl hx
  | case4 st outMap t excluded fid h =>
    intro hcoh
    rw [includeAncestors_stop _ _ _ _ _ _ h]
    exact ⟨hcoh, fun x w hx => Or.inl hx⟩

/-- The ancestor walk only grows the output map, and every key it adds is an
entity id of the graph. -/
theorem includeAncestors_keys (g : FrameGraph) :
    ∀ (st : ProviderState) (outMap : EntityStateMap) (t : ℚ)
      (excluded : List String) (fid : String),
      (∀ x, x ∈ akeys outMap → x ∈ akeys (includeAncestors g st outMap t excluded fid).fst) ∧
      (∀ x, x ∈ akeys (includeAncestors g st outMap t excluded fid).fst →
        x ∈ akeys outMap ∨ x ∈ akeys g) := by
  intro st outMap t excluded fid
  induction st, outMap, t, excluded, fid using includeAncestors.induct g with
  | case1 st outMap t excluded fid h s hr pfid hf ih =>
    rw [includeAncestors_insert_entity _ _ _ _ _ _ s pfid h hr hf]
    obtain ⟨ihmono, ihbound⟩ := ih
    constructor
    · intro x hx
      exact ihmono x (by simp only [akeys, List.map_cons, List.mem_cons]; exact Or.inr hx)
    · intro x hx
      rcases ihbound x hx with hx2 | hx2
      · simp only [akeys, List.map_cons, List.mem_cons] at hx2
        rcases hx2 with rfl | hx2
        · exact Or.inr h.1
        · exact Or.inl hx2
      · exact Or.inr hx2
  | case2 st outMap t excluded fid h s hr f hf =>
    rw [includeAncestors_insert_fixed _ _ _ _ _ _ s f h hr hf]
    constructor
    · intro x hx
      simp only [akeys, List.map_cons, List.mem_cons]
      exact Or.inr hx
    · intro x hx
      simp only [akeys, List.map_cons, List.mem_cons] at hx
      rcases hx with rfl | hx
      · exact Or.inr h.1
      · exact Or.inl hx
  | case3 st outMap t excluded fid h hr =>
    rw [includeAncestors_insert_none _ _ _ _ _ _ h hr]
    constructor
    · intro x hx
      simp only [akeys, List.map_cons, List.mem_cons]
      exact Or.inr hx
    · intro x hx
      simp only [akeys, List.map_cons, List.mem_cons] at hx
      rcases hx with rfl | hx
      · exact Or.inr h.1
      · exact Or.inl hx
  | case4 st outMap t excluded fid h =>
    rw [includeAncestors_stop _ _ _ _ _ _ h]
    exact ⟨fun x hx => hx, fun x hx => Or.inl hx⟩

/-- The ancestor walk establishes ancestor-completeness: if the starting map
is complete except possibly for references to the id being walked, the
resulting map is ancestor-complete. -/
theorem includeAncestors_complete (g : FrameGraph) :
    ∀ (st : ProviderState) (outMap : EntityStateMap) (t : ℚ)
      (excluded : List String) (fid : String),
      (∀ x s2 q, alookup x outMap = some (some s2) →
        s2.referenceFrame = Frame.entity q → q ∈ akeys g → q ∉ excluded →
        q ∈ akeys outMap ∨ q = fid) →
      AncestorComplete g excluded (includeAncestors g st outMap t excluded fid).fst := by
  intro st outMap t excluded fid
  induction st, outMap, t, excluded, fid using includeAncestors.induct g with
  | case1 st outMap t excluded fid h s hr pfid hf ih =>
    intro hpre
    rw [includeAncestors_insert_entity _ _ _ _ _ _ s pfid h hr hf]
    apply ih
    intro x s2 q hx hq hqg hqe
    rw [alookup_cons] at hx
    by_cases hxf : x = fid
    · rw [if_pos hxf, hr] at hx
      injection hx with h2
      injection h2 with h3
      right
      rw [← h3] at hq
      rw [hf] at hq
      injection hq with h4
      exact h4.symm
    · rw [if_neg hxf] at hx
      rcases hpre x s2 q hx hq hqg hqe with hin | rfl
      · exact Or.inl (by simp only [akeys, List.map_cons, List.mem_cons]; exact Or.inr hin)
      · exact Or.inl (by simp [akeys])
  | case2 st outMap t excluded fid h s hr f hf =>
    intro hpre
    rw [includeAncestors_insert_fixed _ _ _ _ _ _ s f h hr hf]
    intro x s2 q hx hq hqg hqe
    rw [alookup_cons] at hx
    by_cases hxf : x = fid
    · rw [if_pos hxf, hr] at hx
      injection hx with h2
      injection h2 with h3
      rw [← h3, hf] at hq
      cases hq
    · rw [if_neg hxf] at hx
      rcases hpre x s2 q hx hq hqg hqe with hin | rfl
      · simp only [akeys, List.map_cons, List.mem_cons]
        exact Or.inr hin
      · simp [akeys]
  | case3 st outMap t excluded fid h hr =>
    intro hpre
    rw [includeAncestors_insert_none _ _ _ _ _ _ h hr]
    intro x s2 q hx hq hqg hqe
    rw [alookup_cons] at hx
    by_cases hxf : x = fid
    · rw [if_pos hxf, hr] at hx
      injection hx with h2
      cases h2
    · rw [if_neg hxf] at hx
      rcases hpre x s2 q hx hq hqg hqe with hin | rfl
      · simp only [akeys, List.map_cons, List.mem_cons]
        exact Or.inr hin
      · simp [akeys]
  | case4 st outMap t excluded fid h =>
    intro hpre
    rw [includeAncestors_stop _ _ _ _ _ _ h]
    intro x s2 q hx hq hqg hqe
    rcases hpre x s2 q hx hq hqg hqe with hin | rfl
    · exact hin
    · by_cases hqm : q ∈ akeys outMap
      · exact hqm
      · exact absurd ⟨hqg, hqm, hqe⟩ h

/-- Unfolding equation of `includeEntity` on a null serialization. -/
theorem includeEntity_eq_none (g : FrameGraph) (st : ProviderState)
    (outMap : EntityStateMap) (t : ℚ) (excluded : List String) (id : String)
    (hr : (getCachedSerializedEntityState g st id t).fst = none) :
    includeEntity g st outMap t excluded id =
      ((id, (getCachedSerializedEntityState g st id t).fst) :: outMap,
        (getCachedSerializedEntityState g st id t).snd) := by
  unfold includeEntity
  simp only [hr]

/-- Unfolding equation of `includeEntity` on a state anchored on a fixed
frame. -/
theorem includeEntity_eq_fixed (g : FrameGraph) (st : ProviderState)
    (outMap : EntityStateMap) (t : ℚ) (excluded : List String) (id : String)
    (s : SerializedEntityState) (f : FixedFrame)
    (hr : (getCachedSerializedEntityState g st id t).fst = some s)
    (hf : s.referenceFrame = Frame.fixed f) :
    includeEntity g st outMap t excluded id =
      ((id, (getCachedSerializedEntityState g st id t).fst) :: outMap,
        (getCachedSerializedEntityState g st id t).snd) := by
  unfold includeEntity
  simp only [hr, hf]

/-- Unfolding equation of `includeEntity` on a state framed by another
entity: insert, then walk the ancestors. -/
theorem includeEntity_eq_entity (g : FrameGraph) (st : ProviderState)
    (outMap : EntityStateMap) (t : ℚ) (excluded : List String) (id : String)
    (s : SerializedEntityState) (pfid : String)
    (hr : (getCachedSerializedEntityState g st id t).fst = some s)
    (hf : s.referenceFrame = Frame.entity pfid) :
    includeEntity g st outMap t excluded id =
      includeAncestors g (getCachedSerializedEntityState g st id t).snd
        ((id, (getCachedSerializedEntityState g st id t).fst) :: outMap)
        t excluded pfid := by
  unfold includeEntity
  simp only [hr, hf]

/-- The cache is stamped with the requested time after an included-id step. -/
theorem includeEntity_cacheTime (g : FrameGraph) (st : ProviderState)
    (outMap : EntityStateMap) (t : ℚ) (excluded : List String) (id : String) :
    (includeEntity g st outMap t excluded id).snd.cacheTime = some t := by
  rcases hr : (getCachedSerializedEntityState g st id t).fst with _ | s
  · rw [includeEntity_eq_none g st outMap t excluded id hr]
    exact gc_cacheTime g st id t
  · rcases hfr : s.referenceFrame with f | pfid
    · rw [includeEntity_eq_fixed g st outMap t excluded id s f hr hfr]
      exact gc_cacheTime g st id t
    · rw [includeEntity_eq_entity g st outMap t excluded id s pfid hr hfr]
      exact (includeAncestors_stamped_pres g _ _ t excluded pfid
        (gc_cacheTime g st id t)).1

/-- On a stamped cache an included-id step only grows the cache. -/
theorem includeEntity_stamped_extends (g : FrameGraph) (st : ProviderState)
    (outMap : EntityStateMap) (t : ℚ) (excluded : List String) (id : String)
    (hst : st.cacheTime = some t) :
    cacheExtends st.entityStateCache
      (includeEntity g st outMap t excluded id).snd.entityStateCache := by
  rcases hr : (getCachedSerializedEntityState g st id t).fst with _ | s
  · rw [includeEntity_eq_none g st outMap t excluded id hr]
    exact gc_extends_of_stamped hst id
  · rcases hfr : s.referenceFrame with f | pfid
    · rw [includeEntity_eq_fixed g st outMap t excluded id s f hr hfr]
      exact gc_extends_of_stamped hst id
    · rw [includeEntity_eq_entity g st outMap t excluded id s pfid hr hfr]
      intro x v hx
      exact (includeAncestors_stamped_pres g _ _ t excluded pfid
        (gc_cacheTime g st id t)).2 x v (gc_extends_of_stamped hst id x v hx)

/-- Replaying an included-id step against a stamped cache that already holds
every entry the step recorded changes nothing. -/
theorem includeEntity_replay (g : FrameGraph) (st : ProviderState)
    (outMap : EntityStateMap) (t : ℚ) (excluded : List String) (id : String)
    (stB : ProviderState) (hstB : stB.cacheTime = some t)
    (hext : cacheExtends (includeEntity g st outMap t excluded id).snd.entityStateCache
      stB.entityStateCache) :
    includeEntity g stB outMap t excluded id =
      ((includeEntity g st outMap t excluded id).fst, stB) := by
  have hself : alookup id
      (getCachedSerializedEntityState g st id t).snd.entityStateCache
      = some (getCachedSerializedEntityState g st id t).fst :=
    gc_lookup_self g st id t
  rcases hr : (getCachedSerializedEntityState g st id t).fst with _ | s
  · rw [includeEntity_eq_none g st outMap t excluded id hr] at hext ⊢
    have hlookB := hext _ _ hself
    have hgB := gc_hit g hstB hlookB
    rw [includeEntity_eq_none g stB outMap t excluded id (by rw [hgB]; exact hr), hgB]
  · rcases hfr : s.referenceFrame with f | pfid
    · rw [includeEntity_eq_fixed g st outMap t excluded id s f hr hfr] at hext ⊢
      have hlookB := hext _ _ hself
      have hgB := gc_hit g hstB hlookB
      rw [includeEntity_eq_fixed g stB outMap t excluded id s f
            (by rw [hgB]; exact hr) hfr, hgB]
    · rw [includeEntity_eq_entity g st outMap t excluded id s pfid hr hfr] at hext ⊢
      have hpers := (includeAncestors_stamped_pres g
        (getCachedSerializedEntityState g st id t).snd
        ((id, (getCachedSerializedEntityState g st id t).fst) :: outMap)
        t excluded pfid (gc_cacheTime g st id t)).2
      have hlookB := hext _ _ (hpers _ _ hself)
      have hgB := gc_hit g hstB hlookB
      rw [includeEntity_eq_entity g stB outMap t excluded id s pfid
            (by rw [hgB]; exact hr) hfr, hgB]
      exact includeAncestors_replay g _ _ t excluded pfid stB hstB hext

/-- On a coherent (or freshly discarded) cache, an included-id step keeps the
cache coherent and only inserts serializations into the output map. -/
theorem includeEntity_coherent (g : FrameGraph) (st : ProviderState)
    (outMap : EntityStateMap) (t : ℚ) (excluded : List String) (id : String)
    (hC : CacheCoherent g t (st.normalize t)) :
    CacheCoherent g t (includeEntity g st outMap t excluded id).snd ∧
    (∀ x w, alookup x (includeEntity g st outMap t excluded id).fst = some w →
      alookup x outMap = some w ∨ w = getSerializedEntityState g x t) := by
  have hgc := gc_coherent g t st hC id
  rcases hr : (getCachedSerializedEntityState g st id t).fst with _ | s
  · rw [includeEntity_eq_none g st outMap t excluded id hr]
    refine ⟨hgc.2, ?_⟩
    intro x w hx
    rw [alookup_cons] at hx
    by_cases hxf : x = id
    · rw [if_pos hxf] at hx
      injection hx with h2
      right
      rw [← h2, hgc.1, hxf]
    · rw [if_neg hxf] at hx
      exact Or.inl hx
  · rcases hfr : s.referenceFrame with f | pfid
    · rw [includeEntity_eq_fixed g st outMap t excluded id s f hr hfr]
      refine ⟨hgc.2, ?_⟩
      intro x w hx
      rw [alookup_cons] at hx
      by_cases hxf : x = id
      · rw [if_pos hxf] at hx
        injection hx with h2
        right
        rw [← h2, hgc.1, hxf]
      · rw [if_neg hxf] at hx
        exact Or.inl hx
    · rw [includeEntity_eq_entity g st outMap t excluded id s pfid hr hfr]
      obtain ⟨iacoh, iavals⟩ := includeAncestors_coherent g
        (getCachedSerializedEntityState g st id t).snd
        ((id, (getCachedSerializedEntityState g st id t).fst) :: outMap)
        t excluded pfid hgc.2
      refine ⟨iacoh, ?_⟩
      intro x w hx
      rcases iavals x w hx with hx2 | hx2
      · rw [alookup_cons] at hx2
        by_cases hxf : x = id
        · rw [if_pos hxf] at hx2
          injection hx2 with h2
          right
          rw [← h2, hgc.1, hxf]
        · rw [if_neg hxf] at hx2
          exact Or.inl hx2
      · exact Or.inr hx2

/-- An included-id step grows the output map, inserts the id itself, and only
adds keys that are the id or entity ids of the graph. -/
theorem includeEntity_keys (g : FrameGraph) (st : ProviderState)
    (outMap : EntityStateMap) (t : ℚ) (excluded : List String) (id : String) :
    (∀ x, x ∈ akeys outMap → x ∈ akeys (includeEntity g st outMap t excluded id).fst) ∧
    (∀ x, x ∈ akeys (includeEntity g st outMap t excluded id).fst →
      x = id ∨ x ∈ akeys outMap ∨ x ∈ akeys g) ∧
    id ∈ akeys (includeEntity g st outMap t excluded id).fst := by
  rcases hr : (getCachedSerializedEntityState g st id t).fst with _ | s
  · rw [includeEntity_eq_none g st outMap t excluded id hr]
    refine ⟨?_, ?_, by simp [akeys]⟩
    · intro x hx
      simp only [akeys, List.map_cons, List.mem_cons]
      exact Or.inr hx
    · intro x hx
      simp only [akeys, List.map_cons, List.mem_cons] at hx
      rcases hx with rfl | hx
      · exact Or.inl rfl
      · exact Or.inr (Or.inl hx)
  · rcases hfr : s.referenceFrame with f | pfid
    · rw [includeEntity_eq_fixed g st outMap t excluded id s f hr hfr]
      refine ⟨?_, ?_, by simp [akeys]⟩
      · intro x hx
        simp only [akeys, List.map_cons, List.mem_cons]
        exact Or.inr hx
      · intro x hx
        simp only [akeys, List.map_cons, List.mem_cons] at hx
        rcases hx with rfl | hx
        · exact Or.inl rfl
        · exact Or.inr (Or.inl hx)
    · rw [includeEntity_eq_entity g st outMap t excluded id s pfid hr hfr]
      obtain ⟨iamono, iabound⟩ := includeAncestors_keys g
        (getCachedSerializedEntityState g st id t).snd
        ((id, (getCachedSerializedEntityState g st id t).fst) :: outMap)
        t excluded pfid
      refine ⟨?_, ?_, ?_⟩
      · intro x hx
        apply iamono x
        simp only [akeys, List.map_cons, List.mem_cons]
        exact Or.inr hx
      · intro x hx
        rcases iabound x hx with hx2 | hx2
        · simp only [akeys, List.map_cons, List.mem_cons] at hx2
          rcases hx2 with rfl | hx2
          · exact Or.inl rfl
          · exact Or.inr (Or.inl hx2)
        · exact Or.inr (Or.inr hx2)
      · exact iamono id (by simp [akeys])

/-- An included-id step preserves ancestor-completeness of the output map. -/
theorem includeEntity_complete (g : FrameGraph) (st : ProviderState)
    (outMap : EntityStateMap) (t : ℚ) (excluded : List String) (id : String)
    (hpre : AncestorComplete g excluded outMap) :
    AncestorComplete g excluded (includeEntity g st outMap t excluded id).fst := by
  rcases hr : (getCachedSerializedEntityState g st id t).fst with _ | s
  · rw [includeEntity_eq_none g st outMap t excluded id hr]
    intro x s2 q hx hq hqg hqe
    rw [alookup_cons] at hx
    by_cases hxf : x = id
    · rw [if_pos hxf, hr] at hx
      injection hx with h2
      cases h2
    · rw [if_neg hxf] at hx
      simp only [akeys, List.map_cons, List.mem_cons]
      exact Or.inr (hpre x s2 q hx hq hqg hqe)
  · rcases hfr : s.referenceFrame with f | pfid
    · rw [includeEntity_eq_fixed g st outMap t excluded id s f hr hfr]
      intro x s2 q hx hq hqg hqe
      rw [alookup_cons] at hx
      by_cases hxf : x = id
      · rw [if_pos hxf, hr] at hx
        injection hx with h2
        injection h2 with h3
        rw [← h3, hfr] at hq
        cases hq
      · rw [if_neg hxf] at hx
        simp only [akeys, List.map_cons, List.mem_cons]
        exact Or.inr (hpre x s2 q hx hq hqg hqe)
    · rw [includeEntity_eq_entity g st outMap t excluded id s pfid hr hfr]
      apply includeAncestors_complete
      intro x s2 q hx hq hqg hqe
      rw [alookup_cons] at hx
      by_cases hxf : x = id
      · rw [if_pos hxf, hr] at hx
        injection hx with h2
        injection h2 with h3
        rw [← h3, hfr] at hq
        injection hq with h4
        right
        exact h4.symm
      · rw [if_neg hxf] at hx
        left
        simp only [akeys, List.map_cons, List.mem_cons]
        exact Or.inr (hpre x s2 q hx hq hqg hqe)

/-- Unfolding equation of `fillEntityStateMap` on the empty include list. -/
theorem fill_nil (g : FrameGraph) (st : ProviderState) (outMap : EntityStateMap)
    (t : ℚ) (excluded : List String) :
    fillEntityStateMap g st outMap t [] excluded = (outMap, st) := rfl

/-- Unfolding equation of `fillEntityStateMap` on an excluded head id. -/
theorem fill_cons_excluded (g : FrameGraph) (st : ProviderState)
    (outMap : EntityStateMap) (t : ℚ) (excluded : List String)
    (id : String) (rest : List String) (h : id ∈ excluded) :
    fillEntityStateMap g st outMap t (id :: rest) excluded =
      fillEntityStateMap g st outMap t rest excluded := by
  rw [fillEntityStateMap, if_pos h]

/-- Unfolding equation of `fillEntityStateMap` on a non-excluded head id. -/
theorem fill_cons_included (g : FrameGraph) (st : ProviderState)
    (outMap : EntityStateMap) (t : ℚ) (excluded : List String)
    (id : String) (rest : List String) (h : id ∉ excluded) :
    fillEntityStateMap g st outMap t (id :: rest) excluded =
      fillEntityStateMap g (includeEntity g st outMap t excluded id).snd
        (includeEntity g st outMap t excluded id).fst t rest excluded := by
  rw [fillEntityStateMap, if_neg h]

/-- A fill keeps a stamped cache stamped and only grows it. -/
theorem fill_stamped_pres (g : FrameGraph) (t : ℚ) (excluded : List String) :
    ∀ (included : List String) (st : ProviderState) (outMap : EntityStateMap),
      st.cacheTime = some t →
      (fillEntityStateMap g st outMap t included excluded).snd.cacheTime = some t ∧
      cacheExtends st.entityStateCache
        (fillEntityStateMap g st outMap t included excluded).snd.entityStateCache := by
  intro included
  induction included with
  | nil => intro st outMap hst; exact ⟨hst, fun x v hx => hx⟩
  | cons id rest ih =>
    intro st outMap hst
    by_cases hex : id ∈ excluded
    · rw [fill_cons_excluded g st outMap t excluded id rest hex]
      exact ih st outMap hst
    · rw [fill_cons_included g st outMap t excluded id rest hex]
      obtain ⟨h1, h2⟩ := ih (includeEntity g st outMap t excluded id).snd
        (includeEntity g st outMap t excluded id).fst
        (includeEntity_cacheTime g st outMap t excluded id)
      exact ⟨h1, fun x v hx =>
        h2 x v (includeEntity_stamped_extends g st outMap t excluded id hst x v hx)⟩

/-- A fill either leaves the provider state untouched (nothing was consulted)
or leaves the cache stamped with the fill's time. -/
theorem fill_state_or_stamped (g : FrameGraph) (t : ℚ) (excluded : List String) :
    ∀ (included : List String) (st : ProviderState) (outMap : EntityStateMap),
      (fillEntityStateMap g st outMap t included excluded).snd = st ∨
      (fillEntityStateMap g st outMap t included excluded).snd.cacheTime = some t := by
  intro included
  induction included with
  | nil => intro st outMap; exact Or.inl rfl
  | cons id rest ih =>
    intro st outMap
    by_cases hex : id ∈ excluded
    · rw [fill_cons_excluded g st outMap t excluded id rest hex]
      exact ih st outMap
    · rw [fill_cons_included g st outMap t excluded id rest hex]
      exact Or.inr (fill_stamped_pres g t excluded rest _ _
        (includeEntity_cacheTime g st outMap t excluded id)).1

/-- Replaying a fill against a stamped cache that already holds every entry
the fill recorded produces the same map and leaves that cache unchanged. -/
theorem fill_replay (g : FrameGraph) (t : ℚ) (excluded : List String) :
    ∀ (included : List String) (st : ProviderState) (outMap : EntityStateMap)
      (stB : ProviderState), stB.cacheTime = some t →
      cacheExtends (fillEntityStateMap g st outMap t included excluded).snd.entityStateCache
        stB.entityStateCache →
      fillEntityStateMap g stB outMap t included excluded =
        ((fillEntityStateMap g st outMap t included excluded).fst, stB) := by
  intro included
  induction included with
  | nil => intro st outMap stB hstB hext; rfl
  | cons id rest ih =>
    intro st outMap stB hstB hext
    by_cases hex : id ∈ excluded
    · rw [fill_cons_excluded g st outMap t excluded id rest hex] at hext ⊢
      rw [fill_cons_excluded g stB outMap t excluded id rest hex]
      exact ih st outMap stB hstB hext
    · rw [fill_cons_included g st outMap t excluded id rest hex] at hext ⊢
      rw [fill_cons_included g stB outMap t excluded id rest hex]
      have hext2 : cacheExtends
          (includeEntity g st outMap t excluded id).snd.entityStateCache
          stB.entityStateCache := by
        intro x v hx
        exact hext x v ((fill_stamped_pres g t excluded rest _ _
          (includeEntity_cacheTime g st outMap t excluded id)).2 x v hx)
      rw [includeEntity_replay g st outMap t excluded id stB hstB hext2]
      exact ih (includeEntity g st outMap t excluded id).snd
        (includeEntity g st outMap t excluded id).fst stB hstB hext

/-- A fill keeps a coherent cache coherent. -/
theorem fill_coherent_pres (g : FrameGraph) (t : ℚ) (excluded : List String) :
    ∀ (included : List String) (st : ProviderState) (outMap : EntityStateMap),
      CacheCoherent g t st →
      CacheCoherent g t (fillEntityStateMap g st outMap t included excluded).snd := by
  intro included
  induction included with
  | nil => intro st outMap hcoh; exact hcoh
  | cons id rest ih =>
    intro st outMap hcoh
    by_cases hex : id ∈ excluded
    · rw [fill_cons_excluded g st outMap t excluded id rest hex]
      exact ih st outMap hcoh
    · rw [fill_cons_included g st outMap t excluded id rest hex]
      exact ih _ _ (includeEntity_coherent g st outMap t excluded id
        ((normalize_of_coherent hcoh).symm ▸ hcoh)).1

/-- A fill that consults at least one id from a coherent-or-stale cache
leaves the cache coherent at the fill's time. -/
theorem fill_first_consult_coherent (g : FrameGraph) (t : ℚ) (excluded : List String) :
    ∀ (included : List String) (st : ProviderState) (outMap : EntityStateMap),
      CacheCoherent g t (st.normalize t) →
      (∃ id ∈ included, id ∉ excluded) →
      CacheCoherent g t (fillEntityStateMap g st outMap t included excluded).snd := by
  intro included
  induction included with
  | nil =>
    intro st outMap hC hwit
    obtain ⟨id, hid, _⟩ := hwit
    cases hid
  | cons id rest ih =>
    intro st outMap hC hwit
    by_cases hex : id ∈ excluded
    · rw [fill_cons_excluded g st outMap t excluded id rest hex]
      obtain ⟨w, hw, hwe⟩ := hwit
      rcases List.mem_cons.mp hw with rfl | hw2
      · exact absurd hex hwe
      · exact ih st outMap hC ⟨w, hw2, hwe⟩
    · rw [fill_cons_included g st outMap t excluded id rest hex]
      exact fill_coherent_pres g t excluded rest _ _
        (includeEntity_coherent g st outMap t excluded id hC).1

/-- Every entry a fill adds to the output map is the serialization of its key
at the fill's time (starting from a coherent-or-stale cache). -/
theorem fill_vals (g : FrameGraph) (t : ℚ) (excluded : List String) :
    ∀ (included : List String) (st : ProviderState) (outMap : EntityStateMap),
      CacheCoherent g t (st.normalize t) →
      ∀ x w, alookup x (fillEntityStateMap g st outMap t included excluded).fst = some w →
        alookup x outMap = some w ∨ w = getSerializedEntityState g x t := by
  intro included
  induction included with
  | nil => intro st outMap hC x w hx; exact Or.inl hx
  | cons id rest ih =>
    intro st outMap hC x w hx
    by_cases hex : id ∈ excluded
    · rw [fill_cons_excluded g st outMap t excluded id rest hex] at hx
      exact ih st outMap hC x w hx
    · rw [fill_cons_included g st outMap t excluded id rest hex] at hx
      obtain ⟨hiecoh, hievals⟩ := includeEntity_coherent g st outMap t excluded id hC
      have hC2 : CacheCoherent g t
          ((includeEntity g st outMap t excluded id).snd.normalize t) := by
        rw [normalize_of_coherent hiecoh]
        exact hiecoh
      rcases ih _ _ hC2 x w hx with hx2 | hx2
      · exact hievals x w hx2
      · exact Or.inr hx2

/-- A fill only grows the output map, and adds only included ids or entity
ids of the graph. -/
theorem fill_keys (g : FrameGraph) (t : ℚ) (excluded : List String) :
    ∀ (included : List String) (st : ProviderState) (outMap : EntityStateMap),
      (∀ x, x ∈ akeys outMap →
        x ∈ akeys (fillEntityStateMap g st outMap t included excluded).fst) ∧
      (∀ x, x ∈ akeys (fillEntityStateMap g st outMap t included excluded).fst →
        x ∈ akeys outMap ∨ x ∈ included ∨ x ∈ akeys g) := by
  intro included
  induction included with
  | nil => intro st outMap; exact ⟨fun x hx => hx, fun x hx => Or.inl hx⟩
  | cons id rest ih =>
    intro st outMap
    by_cases hex : id ∈ excluded
    · rw [fill_cons_excluded g st outMap t excluded id rest hex]
      obtain ⟨hmono, hbound⟩ := ih st outMap
      refine ⟨hmono, ?_⟩
      intro x hx
      rcases hbound x hx with hx2 | hx2 | hx2
      · exact Or.inl hx2
      · exact Or.inr (Or.inl (List.mem_cons_of_mem id hx2))
      · exact Or.inr (Or.inr hx2)
    · rw [fill_cons_included g st outMap t excluded id rest hex]
      obtain ⟨iemono, iebound, ieself⟩ := includeEntity_keys g st outMap t excluded id
      obtain ⟨hmono, hbound⟩ := ih (includeEntity g st outMap t excluded id).snd
        (includeEntity g st outMap t excluded id).fst
      constructor
      · intro x hx
        exact hmono x (iemono x hx)
      · intro x hx
        rcases hbound x hx with hx2 | hx2 | hx2
        · rcases iebound x hx2 with rfl | hx3 | hx3
          · exact Or.inr (Or.inl (List.mem_cons_self x rest))
          · exact Or.inl hx3
          · exact Or.inr (Or.inr hx3)
        · exact Or.inr (Or.inl (List.mem_cons_of_mem id hx2))
        · exact Or.inr (Or.inr hx2)

/-- Every included, non-excluded id ends up in the output map of a fill. -/
theorem fill_mem (g : FrameGraph) (t : ℚ) (excluded : List String) :
    ∀ (included : List String) (st : ProviderState) (outMap : EntityStateMap)
      (id : String), id ∈ included → id ∉ excluded →
      id ∈ akeys (fillEntityStateMap g st outMap t included excluded).fst := by
  intro included
  induction included with
  | nil => intro st outMap id hid; cases hid
  | cons id0 rest ih =>
    intro st outMap id hid hex
    rcases List.mem_cons.mp hid with rfl | hid2
    · rw [fill_cons_included g st outMap t excluded id rest hex]
      exact (fill_keys g t excluded rest _ _).1 id
        (includeEntity_keys g st outMap t excluded id).2.2
    · by_cases hex0 : id0 ∈ excluded
      · rw [fill_cons_excluded g st outMap t excluded id0 rest hex0]
        exact ih st outMap id hid2 hex
      · rw [fill_cons_included g st outMap t excluded id0 rest hex0]
        exact ih _ _ id hid2 hex

/-- A fill preserves ancestor-completeness of the output map. -/
theorem fill_complete (g : FrameGraph) (t : ℚ) (excluded : List String) :
    ∀ (included : List String) (st : ProviderState) (outMap : EntityStateMap),
      AncestorComplete g excluded outMap →
      AncestorComplete g excluded
        (fillEntityStateMap g st outMap t included excluded).fst := by
  intro included
  induction included with
  | nil => intro st outMap hpre; exact hpre
  | cons id rest ih =>
    intro st outMap hpre
    by_cases hex : id ∈ excluded
    · rw [fill_cons_excluded g st outMap t excluded id rest hex]
      exact ih st outMap hpre
    · rw [fill_cons_included g st outMap t excluded id rest hex]
      exact ih _ _ (includeEntity_complete g st outMap t excluded id hpre)

/-- C4 counterexample: a fill at time 2, requested while the cache stores
time 1, that serializes nothing (empty include list) touches neither the
cache entries nor the stored time, refuting "a fill requested for a time
different from the cache's stored time discards the entire cache ..., after
which the cache's stored time equals the new time" as a statement about every
fill. -/
theorem fill_stale_time_counterexample :
    (fillEntityStateMap [] staleProviderState [] 2 [] []).snd.cacheTime = some 1 ∧
    (fillEntityStateMap [] staleProviderState [] 2 [] []).snd.entityStateCache
      = [("x", none)] := by
  exact ⟨rfl, rfl⟩

/-- C4 (amended): the per-frame cache is valid for exactly one time value.
Calling `fillEntityStateMap` a second time with the same time and the same
included and excluded sets produces an identical output map and leaves the
provider state — in particular its compute count — exactly as the first call
left it (cache hits only, no recomputation).  A fill requested for a time
different from the cache's stored time that serializes at least one entity
(the amendment: a fill that serializes nothing leaves the cache untouched)
discards the entire cache before computing: afterwards the stored time equals
the new time and every surviving cache entry is a serialization computed at
the new time, none an entry of the old cache. -/
theorem fillEntityStateMap_cache_valid_per_time
    (g : FrameGraph) (t : ℚ) (included excluded : List String) (st0 : ProviderState) :
    (fillEntityStateMap g (fillEntityStateMap g st0 [] t included excluded).snd
        [] t included excluded
      = ((fillEntityStateMap g st0 [] t included excluded).fst,
         (fillEntityStateMap g st0 [] t included excluded).snd)) ∧
    ((fillEntityStateMap g (fillEntityStateMap g st0 [] t included excluded).snd
        [] t included excluded).snd.computeCount
      = (fillEntityStateMap g st0 [] t included excluded).snd.computeCount) ∧
    (st0.cacheTime ≠ some t → (∃ id ∈ included, id ∉ excluded) →
      (fillEntityStateMap g st0 [] t included excluded).snd.cacheTime = some t ∧
      ∀ x w, alookup x
          (fillEntityStateMap g st0 [] t included excluded).snd.entityStateCache
          = some w →
        w = getSerializedEntityState g x t) := by
  have hpart1 : fillEntityStateMap g
      (fillEntityStateMap g st0 [] t included excluded).snd [] t included excluded
      = ((fillEntityStateMap g st0 [] t included excluded).fst,
         (fillEntityStateMap g st0 [] t included excluded).snd) := by
    rcases fill_state_or_stamped g t excluded included st0 [] with heq | hstamp
    · rw [heq]
      exact Prod.ext rfl heq
    · exact fill_replay g t excluded included st0 []
        (fillEntityStateMap g st0 [] t included excluded).snd hstamp
        (fun x v hx => hx)
  refine ⟨hpart1, by rw [hpart1], ?_⟩
  intro hstale hwit
  have hcoh := fill_first_consult_coherent g t excluded included st0 []
    (normalize_coherent_of_stale hstale) hwit
  exact ⟨hcoh.1, hcoh.2⟩

/-- C4 witness: on the concrete example graph, a second fill at the same time
reproduces the first fill's map and state, and a fill at time 5 over a fresh
provider state stamps the cache with time 5. -/
theorem fillEntityStateMap_cache_valid_per_time_witness :
    (fillEntityStateMap chainGraphE
        (fillEntityStateMap chainGraphE {} [] 5 ["E1"] []).snd [] 5 ["E1"] []
      = ((fillEntityStateMap chainGraphE {} [] 5 ["E1"] []).fst,
         (fillEntityStateMap chainGraphE {} [] 5 ["E1"] []).snd)) ∧
    (fillEntityStateMap chainGraphE {} [] 5 ["E1"] []).snd.cacheTime = some 5 := by
  have h := fillEntityStateMap_cache_valid_per_time chainGraphE 5 ["E1"] [] {}
  exact ⟨h.1, (h.2.2 (by simp) ⟨"E1", by simp, by simp⟩).1⟩

/-- C5: for every call to `fillEntityStateMap` (into a fresh output map), the
output map is ancestor-complete — whenever an entry's own reference frame is
an entity id of the graph that is not excluded, that ancestor is present in
the map too — and every included, non-excluded id is present. -/
theorem fillEntityStateMap_ancestor_complete
    (g : FrameGraph) (t : ℚ) (included excluded : List String) (st : ProviderState) :
    AncestorComplete g excluded
      (fillEntityStateMap g st [] t included excluded).fst ∧
    (∀ id, id ∈ included → id ∉ excluded →
      id ∈ akeys (fillEntityStateMap g st [] t included excluded).fst) := by
  constructor
  · apply fill_complete
    intro x s2 q hx
    simp [alookup] at hx
  · intro id h1 h2
    exact fill_mem g t excluded included st [] id h1 h2

/-- The concrete fill of the example graph: subscribing E1 alone serializes
E1 and, because E1's reference frame is entity E2, also E2. -/
theorem chainGraphE_fill_eval :
    (fillEntityStateMap chainGraphE {} [] 3 ["E1"] []).fst
      = [("E2", some sE2), ("E1", some sE1)] := by
  rw [fill_cons_included chainGraphE {} [] 3 [] "E1" [] (by simp),
      includeEntity_eq_entity chainGraphE {} [] 3 [] "E1" sE1 "E2" rfl rfl,
      includeAncestors_insert_fixed chainGraphE
        (getCachedSerializedEntityState chainGraphE {} "E1" 3).snd
        (("E1", (getCachedSerializedEntityState chainGraphE {} "E1" 3).fst) :: [])
        3 [] "E2" sE2 FixedFrame.FIXED
        ⟨by decide, by decide, by decide⟩ rfl rfl,
      fill_nil]
  decide

/-- C5 witness: subscribing entity E1 (whose reference frame is entity E2,
not separately subscribed, not excluded) yields an output map containing both
E1 and E2. -/
theorem fillEntityStateMap_ancestor_complete_witness :
    "E1" ∈ akeys (fillEntityStateMap chainGraphE {} [] 3 ["E1"] []).fst ∧
    "E2" ∈ akeys (fillEntityStateMap chainGraphE {} [] 3 ["E1"] []).fst := by
  have h := fillEntityStateMap_ancestor_complete chainGraphE 3 ["E1"] [] {}
  refine ⟨h.2 "E1" (by simp) (by simp), ?_⟩
  apply h.1 "E1" sE1 "E2" ?_ rfl (by decide) (by simp)
  rw [chainGraphE_fill_eval]
  decide

/-- The example graph is acyclic: ranking E1 above E2 and U witnesses that
every entity-frame edge strictly descends. -/
theorem chainGraphE_acyclic : AcyclicFrames chainGraphE := by
  refine ⟨fun id => if id = "E1" then 1 else 0, ?_⟩
  intro id ent pid h hf
  by_cases h1 : id = "E1"
  · subst h1
    have he : alookup "E1" chainGraphE = some entE1 := rfl
    rw [he] at h
    injection h with h2
    rw [← h2] at hf
    have hf2 : Frame.entity "E2" = Frame.entity pid := hf
    injection hf2 with h3
    rw [← h3]
    decide
  · by_cases h2 : id = "E2"
    · subst h2
      have he : alookup "E2" chainGraphE = some entE2 := rfl
      rw [he] at h
      injection h with h3
      rw [← h3] at hf
      have : Frame.fixed FixedFrame.FIXED = Frame.entity pid := hf
      cases this
    · by_cases h3 : id = "U"
      · subst h3
        have he : alookup "U" chainGraphE = some entU := rfl
        rw [he] at h
        injection h with h4
        rw [← h4] at hf
        have : Frame.fixed FixedFrame.FIXED = Frame.entity pid := hf
        cases this
      · have : alookup id chainGraphE = none := by
          simp [chainGraphE, alookup, h1, h2, h3]
        rw [this] at h
        cases h

/-- C8: an undefined pose is not an error.  On an acyclic reference-frame
graph pose resolution never raises; if any link of the consulted frame chain
lacks a defined pose at the requested time the resolution returns undefined;
an entity whose pose is undefined serializes to null; a fill gives such an
included entity an explicit null entry in the output map; and an id that was
neither included nor an entity of the graph has no entry at all — null entry
and absence are distinct. -/
theorem undefined_pose_is_not_an_error
    (g : FrameGraph) (id : String) (target : Frame) (t : ℚ)
    (included excluded : List String) (st : ProviderState) (ea : GraphEntity) :
    (AcyclicFrames g → ∀ e, resolve g id target t ≠ .error e) ∧
    (AcyclicFrames g →
      (∃ c ∈ frameChain g id target, ∃ ec, alookup c g = some ec ∧ ec.poseAt t = none) →
      resolve g id target t = .ok none) ∧
    (alookup id g = some ea → ea.poseAt t = none →
      getSerializedEntityState g id t = none) ∧
    (CacheCoherent g t (st.normalize t) → id ∈ included → id ∉ excluded →
      alookup id g = some ea → ea.poseAt t = none →
      alookup id (fillEntityStateMap g st [] t included excluded).fst = some none) ∧
    (∀ x, x ∉ included → x ∉ akeys g →
      alookup x (fillEntityStateMap g st [] t included excluded).fst = none) := by
  have hser : alookup id g = some ea → ea.poseAt t = none →
      getSerializedEntityState g id t = none := by
    intro hl hp
    simp [getSerializedEntityState, hl, hp]
  refine ⟨?_, ?_, hser, ?_, ?_⟩
  · rintro ⟨rank, hrank⟩ e
    exact resolveAux_ne_error_of_rank g rank hrank (rank id) id [] target t
      (le_refl _) (by intro v hv; cases hv) e
  · rintro ⟨rank, hrank⟩ hchain
    exact resolveAux_ok_none_of_chain_undefined g rank hrank (rank id) id [] target t
      (le_refl _) (by intro v hv; cases hv) hchain
  · intro hC hin hex hl hp
    have hmem := fill_mem g t excluded included st [] id hin hex
    obtain ⟨w, hw⟩ := alookup_isSome_of_mem_akeys hmem
    rcases fill_vals g t excluded included st [] hC id w hw with hx | hx
    · simp [alookup] at hx
    · rw [hw, hx, hser hl hp]
  · intro x hxin hxg
    cases hx : alookup x (fillEntityStateMap g st [] t included excluded).fst with
    | none => rfl
    | some w =>
      have hmem := mem_akeys_of_alookup hx
      rcases (fill_keys g t excluded included st []).2 x hmem with h2 | h2 | h2
      · simp [akeys] at h2
      · exact absurd h2 hxin
      · exact absurd h2 hxg

/-- C8 witness: on the concrete example graph, resolving the never-tracked
entity U toward its own fixed frame yields undefined (no error), U serializes
to null, and a fill that includes U produces an explicit null entry for it,
while an unrelated id gets no entry at all. -/
theorem undefined_pose_is_not_an_error_witness :
    resolve chainGraphE "U" (Frame.fixed FixedFrame.FIXED) 3 = .ok none ∧
    getSerializedEntityState chainGraphE "U" 3 = none ∧
    alookup "U" (fillEntityStateMap chainGraphE {} [] 3 ["U"] []).fst = some none ∧
    alookup "nobody" (fillEntityStateMap chainGraphE {} [] 3 ["U"] []).fst = none := by
  have h := undefined_pose_is_not_an_error chainGraphE "U"
    (Frame.fixed FixedFrame.FIXED) 3 ["U"] [] {} entU
  refine ⟨?_, h.2.2.1 rfl rfl, ?_, ?_⟩
  · apply h.2.1 chainGraphE_acyclic
    refine ⟨"U", ?_, entU, rfl, rfl⟩
    rw [frameChain, frameChainAux_lookup_some chainGraphE [] "U"
          (Frame.fixed FixedFrame.FIXED) entU (by simp) rfl,
        if_pos (show entU.frame = Frame.fixed FixedFrame.FIXED from rfl)]
    simp
  · exact h.2.2.2.1 (normalize_coherent_of_stale (by simp)) (by simp) (by simp) rfl rfl
  · exact h.2.2.2.2 "nobody" (by simp) (by decide)

/-- C6: a subscribe request denied by the permission gate is rejected with
`PermissionDenied`, leaves `subscribersByEntity` and
`subscriptionsBySubscriber` (the whole provider subscription state) exactly
as they were, and produces no events or upstream subscriptions. -/
theorem denied_subscribe_leaves_state_unchanged {Opts : Type _}
    (authorize : Nat → String → Opts → Bool) (g : FrameGraph) (t : ℚ)
    (st : ProviderSubState Opts) (session : Nat) (id : String) (opts : Opts)
    (hdeny : authorize session id opts = false) :
    handleSubscribe authorize g t st session id opts
      = (.error SubscribeError.PermissionDenied, st, []) := by
  unfold handleSubscribe
  rw [if_neg (by simp [hdeny])]

/-- C6 witness: a gate that denies everything rejects the concrete request
and leaves the fresh provider state untouched. -/
theorem denied_subscribe_leaves_state_unchanged_witness :
    handleSubscribe (fun (_ : Nat) (_ : String) (_ : Unit) => false) chainGraphE 0 {} 7 "E1" ()
      = (.error SubscribeError.PermissionDenied, {}, []) :=
  denied_subscribe_leaves_state_unchanged (fun _ _ _ => false) chainGraphE 0 {}
    7 "E1" () rfl

/-- C7: two concurrent `subscribe` calls for the same id from the same
session, made before any acknowledgment arrives, resolve to the same entity
and cause exactly one upstream subscribe message; a single unsubscribe
afterwards leaves the remaining local interest in place and sends no
upstream unsubscribe. -/
theorem concurrent_subscribe_coalesces (x : String) :
    alookup 1 (coalesceAfterAck x).resolved = some x ∧
    alookup 2 (coalesceAfterAck x).resolved = some x ∧
    (coalesceAfterAck x).upstreamMessages = [UpstreamMessage.subscribe x] ∧
    alookup x (coalesceAfterAck x).subscriptions = some 2 ∧
    (coalesceAfterUnsubscribe x).upstreamMessages = [UpstreamMessage.subscribe x] ∧
    alookup x (coalesceAfterUnsubscribe x).subscriptions = some 1 := by
  have hack : coalesceAfterAck x =
      { subscriptions := [(x, 2)], pending := [],
        upstreamMessages := [UpstreamMessage.subscribe x],
        resolved := [(2, x), (1, x)] } := by
    simp [coalesceAfterAck, svcSubscribe, svcAck, alookup, aupdate, aremove]
  have hunsub : coalesceAfterUnsubscribe x =
      { subscriptions := [(x, 1)], pending := [],
        upstreamMessages := [UpstreamMessage.subscribe x],
        resolved := [(2, x), (1, x)] } := by
    rw [coalesceAfterUnsubscribe, hack]
    simp [svcUnsubscribe, alookup, aupdate, aremove]
  rw [hack, hunsub]
  refine ⟨?_, ?_, rfl, ?_, rfl, ?_⟩ <;> simp [alookup]

/-- C9: when a default view must be synthesized (the frame state has no view
yet), absent eye parameters raise the fatal configuration error at
view-setup time; a frame state whose view is already defined never errors,
and a defined eye synthesizes the default view — so the only setup-time
failure is the missing-configuration one, which is an exception, unlike a
pose-unknown condition, which is an ordinary value. -/
theorem missing_eye_parameters_is_fatal (projMatrix : ℚ → ℚ → ℚ → List ℚ)
    (piDiv3 docW docH : ℚ) :
    (prepareStateView projMatrix piDiv3 docW docH none none
      = .error "Unable to construct view configuration: missing eye parameters") ∧
    (∀ v eye, prepareStateView projMatrix piDiv3 docW docH eye (some v) = .ok v) ∧
    (∀ e, prepareStateView projMatrix piDiv3 docW docH (some e) none
      = .ok (generateViewFromEyeParameters projMatrix piDiv3 docW docH e)) := by
  exact ⟨rfl, fun v eye => rfl, fun e => rfl⟩

/-- C10: `ViewService.update` stores the context state's view as current in
every case; it raises `viewportChangeEvent` exactly when the recorded
serialization is missing (the very first update) or differs from the current
viewport's serialization; a raised event carries the previous viewport and
the new serialization is recorded; and when the serializations are equal no
event is raised, the element's style is untouched and the recorded
serialization is unchanged.  (The recorded serialization is never the empty
string — it is only ever assigned viewport serializations — which the
hypothesis reflects.) -/
theorem viewService_update_viewport_change (docW docH : ℚ)
    (s : ViewServiceState) (view : SerializedViewParameters)
    (hrec : s.currentViewportJSON ≠ some "") :
    ((ViewService.update docW docH s view).fst.current = some view) ∧
    ((ViewService.update docW docH s view).snd ≠ none ↔
      (s.currentViewportJSON = none ∨
        s.currentViewportJSON ≠ some view.viewport.toJSONString)) ∧
    ((ViewService.update docW docH s view).snd ≠ none →
      (ViewService.update docW docH s view).snd
          = some (s.current.map (fun c => c.viewport)) ∧
      (ViewService.update docW docH s view).fst.currentViewportJSON
          = some view.viewport.toJSONString) ∧
    (s.currentViewportJSON = some view.viewport.toJSONString →
      (ViewService.update docW docH s view).snd = none ∧
      (ViewService.update docW docH s view).fst.elementStyle = s.elementStyle ∧
      (ViewService.update docW docH s view).fst.currentViewportJSON
          = s.currentViewportJSON) := by
  cases hs : s.currentViewportJSON with
  | none => simp [ViewService.update, hs]
  | some j =>
    have hj : (j == "") = false := by
      rw [beq_eq_false_iff_ne]
      intro h
      exact hrec (by rw [hs, h])
    by_cases hjv : j = view.viewport.toJSONString
    · have hj2 : (view.viewport.toJSONString == "") = false := by
        rw [← hjv]; exact hj
      simp [ViewService.update, hs, hj2, hjv]
    · simp [ViewService.update, hs, hj, hjv, bne_iff_ne]

/-- C10 witness: on a fresh view-service state (no recorded serialization)
the very first update raises the event with an undefined previous viewport
and stores the view as current. -/
theorem viewService_update_viewport_change_witness :
    (({} : ViewServiceState).currentViewportJSON ≠ some "") ∧
    (ViewService.update 100 50 {} demoView).fst.current = some demoView ∧
    (ViewService.update 100 50 {} demoView).snd ≠ none := by
  have h := viewService_update_viewport_change 100 50 {} demoView (by simp)
  exact ⟨by simp, h.1, h.2.1.mpr (Or.inl rfl)⟩

end Argon
